import Mathlib

/-!
# Red-Team-Framework: the orchestrator of `main.go`

A shallow embedding of the command-line orchestrator (`main.go`): variable
substitution, argument tokenisation, catalog lookup, the scenario and phase
engine, the line-oriented stream tee and the command-line dispatch.

Conventions of the embedding.

* A Go `string` is a `GoString`, the list of its Unicode code points (the
  catalog strings come out of `encoding/json`, which delivers valid UTF-8).
* The bytes a child process writes to a pipe are a `List Nat` (byte values).
* Side effects are recorded as a trace, a `List Event`, in program order.
* What the operating system does when a command is launched is an explicit
  argument (`Launch`), so that every theorem quantifies over all outcomes.
-/

namespace RedTeam

/-- A Go string, as the sequence of its code points. -/
abbrev GoString := List Char

/-! ## Data model (`main.go`, lines 24-55) -/

/-- `type Tool struct`. -/
structure Tool where
  Name : GoString
  Command : GoString
  Args : GoString
  Install : GoString
  Paths : List GoString
  Installed : Bool
  Path : GoString
  deriving DecidableEq, Repr

/-- `type Phase struct`. -/
structure Phase where
  Tool : GoString
  Args : GoString
  deriving DecidableEq, Repr

/-- `type Scenario struct`. -/
structure Scenario where
  Name : GoString
  Phases : List Phase
  Prechecks : List GoString
  deriving DecidableEq, Repr

/-- `type Config struct`. -/
structure Config where
  Scenarios : List Scenario
  Tools : List Tool
  deriving DecidableEq, Repr

/-- The package-level variables `target` and `module` (lines 53-54). -/
structure Vars where
  target : GoString
  module : GoString
  deriving DecidableEq, Repr

/-! ## Variable substitution (`replaceVariables`, lines 315-321) -/

/-- The first `old` string handed to `strings.NewReplacer`. -/
def targetKey : GoString := "{target}".toList

/-- The second `old` string handed to `strings.NewReplacer`. -/
def moduleKey : GoString := "{module}".toList

/-- The two placeholders. -/
def IsKey (k : GoString) : Prop := k = targetKey ∨ k = moduleKey

/-- The replacer's lookup at one position of the input: of the `old` strings
that are a prefix of the remaining input, the one given first to
`strings.NewReplacer` wins; the result is its replacement and its length. -/
def replacerLookup (v : Vars) (s : GoString) : Option (GoString × Nat) :=
  if targetKey.isPrefixOf s then some (v.target, targetKey.length)
  else if moduleKey.isPrefixOf s then some (v.module, moduleKey.length)
  else none

/-- `Replacer.Replace` for the two pairs of `replaceVariables`: one scan of
the input from left to right. `skip` is the number of input characters still
covered by the match found last (the Go loop does `i += keylen`); at a
position that is not covered, a match writes the replacement and moves past
the matched text, and no match copies one character. -/
def replacerReplace (v : Vars) : Nat → GoString → GoString
  | _, [] => []
  | skip + 1, _ :: rest => replacerReplace v skip rest
  | 0, c :: rest =>
    match replacerLookup v (c :: rest) with
    | some (new, keylen) => new ++ replacerReplace v (keylen - 1) rest
    | none => c :: replacerReplace v 0 rest

/-- `func replaceVariables(input string) string`. -/
def replaceVariables (v : Vars) (input : GoString) : GoString :=
  replacerReplace v 0 input


/-! ## Tokenisation (`strings.Fields`, lines 246 and 282) -/

/-- `unicode.IsSpace`: the Latin-1 spaces `\t \n \v \f \r`, the blank, U+0085
and U+00A0, and the other code points of the Unicode property White_Space. -/
def isSpace (c : Char) : Bool :=
  let n := c.toNat
  (0x09 ≤ n && n ≤ 0x0D) || n == 0x20 || n == 0x85 || n == 0xA0 || n == 0x1680
    || (0x2000 ≤ n && n ≤ 0x200A) || n == 0x2028 || n == 0x2029 || n == 0x202F
    || n == 0x205F || n == 0x3000

/-- The loop of `strings.FieldsFunc`: `cur` is the field being read (`none`
while the scan is between fields, where the Go loop has `start < 0`). A space
ends the field being read; any other character starts or extends one. -/
def fieldsLoop : Option GoString → GoString → List GoString
  | none, [] => []
  | some w, [] => [w]
  | none, c :: r => if isSpace c then fieldsLoop none r else fieldsLoop (some [c]) r
  | some w, c :: r =>
    if isSpace c then w :: fieldsLoop none r else fieldsLoop (some (w ++ [c])) r

/-- `strings.Fields`. -/
def fields (s : GoString) : List GoString := fieldsLoop none s

/-- The argument list both `executePhase` (line 245-246) and `runTool`
(line 281-282) hand to `exec.Command`: `strings.Fields(replaceVariables(t))`. -/
def commandArgs (v : Vars) (template : GoString) : List GoString :=
  fields (replaceVariables v template)

/-- Every character is a space. -/
def AllSpace (g : GoString) : Prop := ∀ c ∈ g, isSpace c = true

/-- No character is a space. -/
def NoSpace (a : GoString) : Prop := ∀ c ∈ a, isSpace c = false

instance (g : GoString) : Decidable (AllSpace g) := by
  unfold AllSpace; infer_instance

instance (a : GoString) : Decidable (NoSpace a) := by
  unfold NoSpace; infer_instance

/-! ## Catalog lookup (`getTool`, lines 306-313) -/

/-- `func getTool(name string) *Tool`: the first tool of the catalog, in
catalog order, whose name `strings.EqualFold` equates with `name`. The
library function `strings.EqualFold` (equality under Unicode simple case
folding) is the parameter `equalFold`. -/
def getTool (equalFold : GoString → GoString → Bool) :
    List Tool → GoString → Option Tool
  | [], _ => none
  | t :: rest, name => if equalFold t.Name name then some t else getTool equalFold rest name

/-- What `strings.EqualFold` computes on ASCII strings (its fast path): the
strings have the same length and agree position by position up to the case
of the letters `A`-`Z`. Used to evaluate examples. -/
def asciiEqualFold : GoString → GoString → Bool
  | [], [] => true
  | s :: ss, t :: ts =>
    let lo := min s.toNat t.toNat
    let hi := max s.toNat t.toNat
    (s == t || (65 ≤ lo && lo ≤ 90 && hi == lo + 32)) && asciiEqualFold ss ts
  | _, _ => false

/-! ## Effects -/

/-- One observable effect of the program, named after the statement that
causes it. -/
inductive Event
  /-- Line 225, `fmt.Printf("\nRunning scenario: %s\n", scenario.Name)`. -/
  | printRunning (name : GoString)
  /-- Line 227, `fmt.Printf("\n=== Phase %d/%d ===\n", i+1, len(scenario.Phases))`. -/
  | printBanner (i n : Nat)
  /-- Line 228, the call `executePhase(phase)`. -/
  | callExecutePhase (p : Phase)
  /-- Line 230, `fmt.Println("\nScenario complete!")`. -/
  | printComplete
  /-- A `log.Printf` with the message shown (the logger's time stamp left out). -/
  | logPrintf (msg : GoString)
  /-- A `log.Fatalf` or `log.Fatal`: the message, then `os.Exit(1)`. -/
  | logFatalf (msg : GoString)
  /-- Line 327, `os.Create` of the log file for `context`, and whether it succeeded. -/
  | createLog (context : GoString) (ok : Bool)
  /-- The deferred `logFile.Close()` of an open log file. -/
  | closeLog
  /-- `cmd.Start()` of `exec.Command(path, args...)`, and whether the process started. -/
  | start (path : GoString) (args : List GoString) (ok : Bool)
  /-- Line 340, `fmt.Println(line)`. -/
  | println (line : List Nat)
  /-- Line 342, `logFile.WriteString(line + "\n")`: the bytes appended. -/
  | logWrite (bytes : List Nat)
  /-- The text of `printHelp`. -/
  | printHelp
  /-- The listing of `listScenarios`. -/
  | listScenarios
  /-- The listing of `listTools`. -/
  | listTools
  deriving DecidableEq, Repr

/-- The effects of a function and how it ended: `exit = none` when it
returned, `some c` when it ended the process with status `c`. -/
structure Run where
  trace : List Event
  exit : Option Nat
  deriving DecidableEq, Repr

def msgToolNotFound (name : GoString) : GoString :=
  "Tool ".toList ++ name ++ " not found".toList

def msgNotInstalled (name install : GoString) : GoString :=
  "Tool ".toList ++ name ++ " not installed! Visit ".toList ++ install

def msgScenarioNotFound (name : GoString) : GoString :=
  "Scenario ".toList ++ name ++ " not found".toList

/-- The text before the error value in `"Error creating log file: %v"`. -/
def msgCreateLogError : GoString := "Error creating log file".toList

/-- The text before the error value in `"Error starting command: %v"`. -/
def msgStartError : GoString := "Error starting command".toList

/-- The text before the error value in `"Command failed: %v"`. -/
def msgCommandFailed : GoString := "Command failed".toList

/-! ## Stream tee (`streamOutput`, lines 335-345) -/

/-- `bufio.MaxScanTokenSize`, the largest buffer a `bufio.Scanner` made by
`bufio.NewScanner` allocates. -/
def maxScanTokenSize : Nat := 64 * 1024

/-- `dropCR` of `bufio`: drops one terminal `\r` (byte 13). -/
def dropCR (data : List Nat) : List Nat :=
  if data.getLast? = some 13 then data.dropLast else data

/-- The tokens `scanner.Scan()` delivers with the default split function
`bufio.ScanLines`, for a reader that delivers the given bytes and then ends
(end of file or a read error). `cur` is the data buffered since the last
token. A newline (byte 10) ends a token; at the end of the input a non-empty
rest is a last token; when the buffer holds `maxScanTokenSize` bytes without
a newline the scanner stops with `ErrTooLong`, and `Scan` returns false from
then on. -/
def scanLoop : List Nat → List Nat → List (List Nat)
  | cur, [] => if cur = [] then [] else [dropCR cur]
  | cur, b :: rest =>
    if b = 10 then dropCR cur :: scanLoop [] rest
    else if maxScanTokenSize ≤ cur.length + 1 then []
    else scanLoop (cur ++ [b]) rest

/-- The lines the loop `for scanner.Scan() { line := scanner.Text() ... }`
sees for the bytes read from the pipe. -/
def scanLines (pipe : List Nat) : List (List Nat) := scanLoop [] pipe

/-- `func streamOutput(pipe, logFile, wg)`: for every scanned line, the line
to the console and, when `logFile != nil`, the line and a newline to the log
file. `pipe` is what the drain reads from its pipe until the stream ends. -/
def streamOutput (pipe : List Nat) (logFile : Bool) : List Event :=
  (scanLines pipe).flatMap fun line =>
    Event.println line :: (if logFile then [Event.logWrite (line ++ [10])] else [])

/-- An interleaving of the effects of two concurrent tasks, chosen by a
schedule: `true` lets the first task perform its next effect, `false` the
second; a task that has finished is skipped, and when the schedule is used up
the first task runs to its end before the second. -/
def interleave {α : Type} : List Bool → List α → List α → List α
  | _, [], ys => ys
  | _, x :: xs, [] => x :: xs
  | [], x :: xs, y :: ys => (x :: xs) ++ (y :: ys)
  | true :: s, x :: xs, y :: ys => x :: interleave s xs (y :: ys)
  | false :: s, x :: xs, y :: ys => y :: interleave s (x :: xs) ys

/-- The bytes of a stream made of the lines `lines`, each followed by a
newline, and then of `last`, a final line without a newline (`[]` when the
stream ends with the newline of its last line). -/
def streamBytes (lines : List (List Nat)) (last : List Nat) : List Nat :=
  lines.flatMap (fun x => x ++ [10]) ++ last

/-- The lines of the stream `streamBytes lines last`. -/
def streamLines (lines : List (List Nat)) (last : List Nat) : List (List Nat) :=
  lines ++ (if last = [] then [] else [last])

/-! ## Phase executor and tool runner (lines 233-304) -/

/-- What the environment does when a command is launched, for a process that
exits when it is started: whether the log file and the process can be
created, what the drains read, how the goroutines interleave, and the exit
status. -/
structure Launch where
  /-- `os.Create` in `createLogFile` succeeds. -/
  logOk : Bool
  /-- `cmd.Start()` returns no error. -/
  startOk : Bool
  /-- The bytes the drain of stdout reads before its stream ends. -/
  stdout : List Nat
  /-- The bytes the drain of stderr reads before its stream ends. -/
  stderr : List Nat
  /-- The interleaving of the two drains. -/
  sched : List Bool
  /-- The interleaving of the drains with the function's own goroutine. -/
  schedMain : List Bool
  /-- `cmd.Wait()` returns no error (the process exited with status 0). -/
  waitOk : Bool
  deriving DecidableEq, Repr

/-- `func createLogFile(context string) *os.File` (lines 323-333). -/
def createLogFile (context : GoString) (ok : Bool) : List Event :=
  Event.createLog context ok :: (if ok then [] else [Event.logPrintf msgCreateLogError])

/-- Lines 254-268 (and 290-303): the two drains, started as goroutines, run
while the function waits for the process in `cmd.Wait()` and reports its
failure; the function goes on after `wg.Wait()`. -/
def superviseProcess (l : Launch) : List Event :=
  interleave l.schedMain
    (interleave l.sched (streamOutput l.stdout l.logOk) (streamOutput l.stderr l.logOk))
    (if l.waitOk then [] else [Event.logPrintf msgCommandFailed])

/-- The deferred `logFile.Close()`; on a nil file it only returns an error. -/
def deferredClose (l : Launch) : List Event :=
  if l.logOk then [Event.closeLog] else []

/-- `func executePhase(phase Phase)`. It always returns. -/
def executePhase (equalFold : GoString → GoString → Bool) (cfg : Config) (v : Vars)
    (l : Launch) (phase : Phase) : List Event :=
  match getTool equalFold cfg.Tools phase.Tool with
  | none => [Event.logPrintf (msgToolNotFound phase.Tool)]
  | some tool =>
    if !tool.Installed then
      [Event.logPrintf (msgNotInstalled tool.Name tool.Install)]
    else
      createLogFile tool.Name l.logOk
        ++ Event.start tool.Path (commandArgs v phase.Args) l.startOk
        :: (if l.startOk then superviseProcess l
            else [Event.logPrintf msgStartError])
        ++ deferredClose l

/-- `func runTool(name string)`. -/
def runTool (equalFold : GoString → GoString → Bool) (cfg : Config) (v : Vars)
    (l : Launch) (name : GoString) : Run :=
  match getTool equalFold cfg.Tools name with
  | none => ⟨[Event.logFatalf (msgToolNotFound name)], some 1⟩
  | some tool =>
    if !tool.Installed then
      ⟨[Event.logFatalf (msgNotInstalled tool.Name tool.Install)], some 1⟩
    else if l.startOk then
      ⟨createLogFile tool.Name l.logOk
        ++ Event.start tool.Path (commandArgs v tool.Args) true
        :: superviseProcess l ++ deferredClose l, none⟩
    else
      ⟨createLogFile tool.Name l.logOk
        ++ [Event.start tool.Path (commandArgs v tool.Args) false,
            Event.logFatalf msgStartError], some 1⟩

/-! ## Scenario runner (`runScenario`, lines 212-231) -/

/-- Lines 213-219: the first scenario of the catalog whose name is `name`. -/
def findScenario (name : GoString) : List Scenario → Option Scenario
  | [] => none
  | s :: rest => if s.Name = name then some s else findScenario name rest

/-- Lines 226-229: the loop over the phases; `i` is the loop index, `n` is
`len(scenario.Phases)`, and `w i` is what the environment does for the
command of phase `i`. -/
def runPhases (equalFold : GoString → GoString → Bool) (cfg : Config) (v : Vars)
    (w : Nat → Launch) (n : Nat) : Nat → List Phase → List Event
  | _, [] => []
  | i, phase :: rest =>
    Event.printBanner (i + 1) n :: Event.callExecutePhase phase
      :: executePhase equalFold cfg v (w i) phase
      ++ runPhases equalFold cfg v w n (i + 1) rest

/-- `func runScenario(name string)`. -/
def runScenario (equalFold : GoString → GoString → Bool) (cfg : Config) (v : Vars)
    (w : Nat → Launch) (name : GoString) : Run :=
  match findScenario name cfg.Scenarios with
  | none => ⟨[Event.logFatalf (msgScenarioNotFound name)], some 1⟩
  | some scenario =>
    ⟨Event.printRunning scenario.Name
      :: runPhases equalFold cfg v w scenario.Phases.length 0 scenario.Phases
      ++ [Event.printComplete], none⟩

/-! ## Command line (`init`, `main` and the subcommands, lines 57-135) -/

/-- The result of `flag.Parse()`: the flag variables and the arguments left
over, or the exit status with which the `flag` package ends the process
(`flag.CommandLine` is an `ExitOnError` flag set). -/
inductive Parsed
  | ok (v : Vars) (rest : List GoString)
  | exit (code : Nat)
  deriving DecidableEq, Repr

/-- The loop of `parseOne` that looks for `=` in a flag name, from its second
character on: the name before it and the value after it. -/
def splitFlagValue : GoString → GoString × Option GoString
  | [] => ([], none)
  | c :: r =>
    match r.span (fun x => x != '=') with
    | (pre, []) => (c :: pre, none)
    | (pre, _ :: value) => (c :: pre, some value)

/-- `flag.Value.Set` of the two string flags registered in `init`. -/
def setFlag (v : Vars) (name value : GoString) : Vars :=
  if name = "target".toList then { v with target := value } else { v with module := value }

/-- How `parseOne` reads the argument at the head of the argument list. -/
inductive FlagArg
  /-- Not a flag: shorter than two characters or not starting with `-`. -/
  | nonFlag
  /-- The terminator `--`. -/
  | terminator
  /-- `bad flag syntax`. -/
  | bad
  /-- `-h` or `-help`, which are not defined flags. -/
  | help
  /-- `flag provided but not defined`. -/
  | undefined
  /-- A defined flag, with the value of `-name=value` when it has this form. -/
  | flag (name : GoString) (value : Option GoString)
  deriving DecidableEq, Repr

/-- The first half of `FlagSet.parseOne`, up to the lookup of the flag name
among the flags `target` and `module` registered in `init`. -/
def classifyArg (s : GoString) : FlagArg :=
  match s with
  | '-' :: c :: t =>
    if c = '-' ∧ t = [] then .terminator
    else
      let name := if c = '-' then t else c :: t
      if name = [] ∨ name.head? = some '-' ∨ name.head? = some '=' then .bad
      else
        let nv := splitFlagValue name
        if nv.1 = "target".toList ∨ nv.1 = "module".toList then .flag nv.1 nv.2
        else if nv.1 = "help".toList ∨ nv.1 = "h".toList then .help
        else .undefined
  | _ => .nonFlag

/-- The loop of `FlagSet.Parse` over `parseOne`. `pending` is a flag read
without `=value`, whose value is the next argument. Parsing stops, without
error, at the first argument that is not a flag and after `--`; a bad or
undefined flag or a missing value ends the process with status 2, `-h` and
`-help` with status 0. -/
def flagLoop (v : Vars) (pending : Option GoString) : List GoString → Parsed
  | [] =>
    match pending with
    | none => .ok v []
    | some _ => .exit 2
  | s :: args =>
    match pending with
    | some name => flagLoop (setFlag v name s) none args
    | none =>
      match classifyArg s with
      | .nonFlag => .ok v (s :: args)
      | .terminator => .ok v args
      | .bad => .exit 2
      | .help => .exit 0
      | .undefined => .exit 2
      | .flag name (some value) => flagLoop (setFlag v name value) none args
      | .flag name none => flagLoop v (some name) args

/-- `flag.Parse()` on the arguments `os.Args[1:]`, starting from the values
`v` of the flag variables. -/
def flagParse (v : Vars) (args : List GoString) : Parsed := flagLoop v none args

/-- What `main` does once the flags are parsed. -/
inductive Action
  /-- `printHelp()`. -/
  | help
  /-- `listScenarios(); listTools()`. -/
  | listAll
  /-- `listScenarios()`. -/
  | listScenarios
  /-- `listTools()`. -/
  | listTools
  /-- `log.Fatal(msg)`. -/
  | fatal (msg : GoString)
  /-- The `flag` package ended the process with this status. -/
  | exit (code : Nat)
  /-- `runScenario(name)` with the flag variables having the values `v`. -/
  | runScenario (name : GoString) (v : Vars)
  /-- `runTool(name)` with the flag variables having the values `v`. -/
  | runTool (name : GoString) (v : Vars)
  deriving DecidableEq, Repr

/-- `func listCommand()`. -/
def listCommand (osArgs : List GoString) : Action :=
  match osArgs with
  | _ :: _ :: sub :: _ =>
    if sub = "scenarios".toList then .listScenarios
    else if sub = "tools".toList then .listTools
    else .help
  | _ => .listAll

/-- `func scenarioCommand()`. -/
def scenarioCommand (v : Vars) (osArgs : List GoString) : Action :=
  match osArgs with
  | _ :: _ :: sub :: rest =>
    if sub = "run".toList then
      match rest with
      | name :: _ => .runScenario name v
      | [] => .fatal "Missing scenario name".toList
    else .help
  | _ => .help

/-- `func toolCommand()`. -/
def toolCommand (v : Vars) (osArgs : List GoString) : Action :=
  match osArgs with
  | _ :: _ :: sub :: rest =>
    if sub = "run".toList then
      match rest with
      | name :: _ => .runTool name v
      | [] => .fatal "Missing tool name".toList
    else .help
  | _ => .help

/-- Lines 67-83 of `main`: `flag.Parse()`, with both flag variables at their
default `""`, then the dispatch on `os.Args[1]`. `osArgs` is `os.Args`, the
program name first. -/
def dispatch (osArgs : List GoString) : Action :=
  match flagParse ⟨[], []⟩ (osArgs.drop 1) with
  | .exit code => .exit code
  | .ok v _ =>
    match osArgs with
    | _ :: cmd :: _ =>
      if cmd = "list".toList then listCommand osArgs
      else if cmd = "scenario".toList then scenarioCommand v osArgs
      else if cmd = "tool".toList then toolCommand v osArgs
      else .help
    | _ => .help

/-- `func main()`, for the catalog `cfg` that `loadConfig`, `loadToolDB` and
`scanSystemTools` have built. -/
def main (equalFold : GoString → GoString → Bool) (cfg : Config) (w : Nat → Launch)
    (osArgs : List GoString) : Run :=
  match dispatch osArgs with
  | .help => ⟨[Event.printHelp], none⟩
  | .listAll => ⟨[Event.listScenarios, Event.listTools], none⟩
  | .listScenarios => ⟨[Event.listScenarios], none⟩
  | .listTools => ⟨[Event.listTools], none⟩
  | .fatal msg => ⟨[Event.logFatalf msg], some 1⟩
  | .exit code => ⟨[], some code⟩
  | .runScenario name v => runScenario equalFold cfg v w name
  | .runTool name v => runTool equalFold cfg v (w 0) name

/-! ## The supervision of a started process, step by step (lines 251-268, 287-303)

`executePhase` and `runTool` run three goroutines once `cmd.Start()` has
succeeded: two drains (`streamOutput`, started at lines 257-258 and 293-294)
and the function itself, which calls `cmd.Wait()` and then `wg.Wait()`. The
child process runs beside them. An execution is a sequence of atomic steps of
these four parties. Per the documentation of `os/exec`, `Cmd.Wait` closes the
read ends returned by `StdoutPipe` and `StderrPipe` once it has seen the
process exit. -/

/-- Where the function is after `cmd.Start()`: in `cmd.Wait()` (lines 265,
300), in `wg.Wait()` (lines 268, 303), or past it. -/
inductive Pc
  | cmdWait
  | wgWait
  | returned
  deriving DecidableEq, Repr

/-- One output stream of the child and its drain. -/
structure Pipe where
  /-- The bytes the child has still to write to the stream. -/
  toWrite : List Nat
  /-- The bytes in the pipe of the operating system: written, not yet read. -/
  buffer : List Nat
  /-- The bytes the drain has read. -/
  got : List Nat
  /-- The drain has left its loop and called `wg.Done()`. -/
  done : Bool
  deriving DecidableEq, Repr

/-- The state of a supervised process. -/
structure Sys where
  out : Pipe
  err : Pipe
  /-- The child has exited; its ends of the pipes are closed. -/
  exited : Bool
  /-- `cmd.Wait()` has closed the read ends of the pipes. -/
  closed : Bool
  pc : Pc
  deriving DecidableEq, Repr

/-- The two streams. -/
inductive Fd
  | stdout
  | stderr
  deriving DecidableEq, Repr

/-- The parties' atomic steps. -/
inductive Label
  /-- The child writes its next byte to a stream. -/
  | childWrite (fd : Fd)
  /-- The child exits. -/
  | childExit
  /-- The drain of a stream returns from a read of its pipe. -/
  | drainRead (fd : Fd)
  /-- The function returns from the wait it is in. -/
  | mainStep
  deriving DecidableEq, Repr

def Sys.pipe (s : Sys) : Fd → Pipe
  | .stdout => s.out
  | .stderr => s.err

def Sys.setPipe (s : Sys) : Fd → Pipe → Sys
  | .stdout, p => { s with out := p }
  | .stderr, p => { s with err := p }

/-- The state right after `cmd.Start()` has succeeded, for a child that will
write `out` to stdout and `err` to stderr. -/
def Sys.init (out err : List Nat) : Sys :=
  { out := ⟨out, [], [], false⟩, err := ⟨err, [], [], false⟩,
    exited := false, closed := false, pc := .cmdWait }

/-- One step; `none` when the party cannot move (it is blocked or finished).
`cap` is the capacity of a pipe of the operating system.
* The child writes a byte when the pipe has room, and exits when it has
  written everything.
* A read by a drain fails once the read end is closed, which ends the drain;
  otherwise it takes the bytes in the pipe; on an empty pipe it sees the end
  of the stream when the child has exited, and blocks when it has not.
* `cmd.Wait()` returns when the child has exited, and closes the read ends;
  `wg.Wait()` returns when both drains have called `wg.Done()`. -/
def step (cap : Nat) (s : Sys) : Label → Option Sys
  | .childWrite fd =>
    match (s.pipe fd).toWrite with
    | [] => none
    | b :: rest =>
      if !s.exited && (s.pipe fd).buffer.length < cap then
        some (s.setPipe fd { s.pipe fd with toWrite := rest, buffer := (s.pipe fd).buffer ++ [b] })
      else none
  | .childExit =>
    if !s.exited && s.out.toWrite.isEmpty && s.err.toWrite.isEmpty then
      some { s with exited := true }
    else none
  | .drainRead fd =>
    if (s.pipe fd).done then none
    else if s.closed then some (s.setPipe fd { s.pipe fd with done := true })
    else if !(s.pipe fd).buffer.isEmpty then
      some (s.setPipe fd { s.pipe fd with got := (s.pipe fd).got ++ (s.pipe fd).buffer, buffer := [] })
    else if s.exited then some (s.setPipe fd { s.pipe fd with done := true })
    else none
  | .mainStep =>
    match s.pc with
    | .cmdWait => if s.exited then some { s with closed := true, pc := .wgWait } else none
    | .wgWait => if s.out.done && s.err.done then some { s with pc := .returned } else none
    | .returned => none

/-- An execution: the steps taken in order; `none` when one of them cannot
be taken. -/
def exec (cap : Nat) : Sys → List Label → Option Sys
  | s, [] => some s
  | s, l :: ls =>
    match step cap s l with
    | none => none
    | some s' => exec cap s' ls

/-! ## Observations on traces -/

/-- The phase of a call of `executePhase`. -/
def Event.call? : Event → Option Phase
  | .callExecutePhase p => some p
  | _ => none

/-- The pair `(i, n)` of a banner `Phase i/n`. -/
def Event.banner? : Event → Option (Nat × Nat)
  | .printBanner i n => some (i, n)
  | _ => none

/-- The bytes of a write to the log file. -/
def Event.logWrite? : Event → Option (List Nat)
  | .logWrite bytes => some bytes
  | _ => none

/-- The line of a `fmt.Println` of a drain. -/
def Event.println? : Event → Option (List Nat)
  | .println line => some line
  | _ => none

/-- The path, the arguments and the success of a `cmd.Start()`. -/
def Event.start? : Event → Option (GoString × List GoString × Bool)
  | .start path args ok => some (path, args, ok)
  | _ => none

/-- The processes started, in order: path, argument list, and whether the
start succeeded. -/
def starts (tr : List Event) : List (GoString × List GoString × Bool) :=
  tr.filterMap Event.start?

/-- The phases `executePhase` was called on, in order. -/
def calls (tr : List Event) : List Phase := tr.filterMap Event.call?

/-- The phase banners printed, in order, as the pairs `(i, n)` of `Phase i/n`. -/
def banners (tr : List Event) : List (Nat × Nat) := tr.filterMap Event.banner?

/-- The byte strings appended to the log file, in order. -/
def logWrites (tr : List Event) : List (List Nat) := tr.filterMap Event.logWrite?

/-- The lines printed to the console by the drains, in order. -/
def consoleLines (tr : List Event) : List (List Nat) := tr.filterMap Event.println?

/-- The effects of `runScenario`'s own statements (lines 225-230). -/
def Event.ofRunScenario : Event → Bool
  | .printRunning _ => true
  | .printBanner _ _ => true
  | .callExecutePhase _ => true
  | .printComplete => true
  | _ => false

/-- A process is spawned or a log file is created. -/
def Event.isLaunch : Event → Bool
  | .start _ _ _ => true
  | .createLog _ _ => true
  | _ => false

/-! ## Example catalogs -/

/-- An installed tool `echo-tool`. -/
def echoTool : Tool :=
  { Name := "echo-tool".toList, Command := "echo".toList, Args := "{target}".toList,
    Install := "https://example.org/echo".toList, Paths := ["echo".toList],
    Installed := true, Path := "echo".toList }

/-- A tool `nmap` that is not installed. -/
def nmapMissing : Tool :=
  { Name := "nmap".toList, Command := "nmap".toList, Args := "-sV {target}".toList,
    Install := "https://nmap.org/download".toList, Paths := ["nmap".toList],
    Installed := false, Path := [] }

/-- The tool `nmap`, installed. -/
def nmapTool : Tool := { nmapMissing with Installed := true, Path := "nmap".toList }

/-- A scenario whose first phase names a tool that is not in the catalog. -/
def ghostScenario : Scenario :=
  { Name := "ghost-first".toList,
    Phases := [⟨"ghost".toList, []⟩, ⟨"echo-tool".toList, "hello {target}".toList⟩],
    Prechecks := [] }

/-- A scenario of three phases whose second tool is not installed. -/
def threePhases : Scenario :=
  { Name := "three".toList,
    Phases := [⟨"echo-tool".toList, "one".toList⟩, ⟨"NMAP".toList, "-sV {target}".toList⟩,
      ⟨"echo-tool".toList, "three".toList⟩],
    Prechecks := [] }

def demoConfig : Config :=
  { Scenarios := [ghostScenario, threePhases], Tools := [echoTool, nmapMissing] }

/-- A launch in which the log file is created, the process starts, writes
the line `ok` to stdout and exits with status 0. -/
def quietLaunch : Launch :=
  { logOk := true, startOk := true, stdout := [111, 107, 10], stderr := [],
    sched := [], schedMain := [], waitOk := true }

/-- A launch whose process writes the one line `a\r`, then a newline, to
stdout and nothing to stderr. -/
def crLaunch : Launch :=
  { logOk := true, startOk := true, stdout := streamBytes [[97, 13]] [], stderr := [],
    sched := [], schedMain := [], waitOk := true }

/-- A launch whose process writes `a`, `b` and an unterminated `c` to stdout
and the line `e` to stderr; the drains take turns. -/
def mixedLaunch : Launch :=
  { logOk := true, startOk := true, stdout := streamBytes [[97], [98]] [99],
    stderr := streamBytes [[101]] [], sched := [true, true, false, false, true],
    schedMain := [], waitOk := true }

/-- A catalog with the tool `nmap` installed. -/
def nmapConfig : Config := { Scenarios := [threePhases], Tools := [nmapTool] }

/-- The command line of the last example of `printHelp`,
`rtcli tool run nmap -target 10.0.0.5`. -/
def documentedArgs : List GoString :=
  ["rtcli".toList, "tool".toList, "run".toList, "nmap".toList, "-target".toList,
    "10.0.0.5".toList]

/-- An execution in which the child writes `a` and a newline to stdout and
exits, `cmd.Wait()` returns next, and only then the drains get to read. -/
def waitFirst : List Label :=
  [.childWrite .stdout, .childWrite .stdout, .childExit, .mainStep,
    .drainRead .stdout, .drainRead .stderr, .mainStep]

/-! ## Theorems -/

/-! ### Substitution -/

theorem replaceVariables_nil (v : Vars) : replaceVariables v [] = [] := rfl

theorem replaceVariables_targetKey_append (v : Vars) (r : GoString) :
    replaceVariables v (targetKey ++ r) = v.target ++ replaceVariables v r := by
  simp [replaceVariables, targetKey, replacerReplace, replacerLookup, List.isPrefixOf]

theorem replaceVariables_moduleKey_append (v : Vars) (r : GoString) :
    replaceVariables v (moduleKey ++ r) = v.module ++ replaceVariables v r := by
  simp [replaceVariables, moduleKey, targetKey, replacerReplace, replacerLookup,
    List.isPrefixOf]

theorem replaceVariables_cons_of_no_match (v : Vars) (c : Char) (r : GoString)
    (ht : ¬ targetKey <+: c :: r) (hm : ¬ moduleKey <+: c :: r) :
    replaceVariables v (c :: r) = c :: replaceVariables v r := by
  have ht2 : targetKey.isPrefixOf (c :: r) = false := by
    rw [Bool.eq_false_iff, Ne, List.isPrefixOf_iff_prefix]; exact ht
  have hm2 : moduleKey.isPrefixOf (c :: r) = false := by
    rw [Bool.eq_false_iff, Ne, List.isPrefixOf_iff_prefix]; exact hm
  simp [replaceVariables, replacerReplace, replacerLookup, ht2, hm2]

theorem IsKey.length_eq {k : GoString} (h : IsKey k) : k.length = 8 := by
  rcases h with rfl | rfl <;> rfl

theorem IsKey.head {k : GoString} (h : IsKey k) : ∃ t, k = '{' :: t := by
  rcases h with rfl | rfl
  · exact ⟨_, rfl⟩
  · exact ⟨_, rfl⟩

/-- An opening brace occurs in a placeholder at its first position only. -/
theorem IsKey.brace_only_first {k : GoString} (h : IsKey k) (i : Nat) (hi : 0 < i) :
    k[i]? ≠ some '{' := by
  have h8 : ∀ j : Fin 8, 0 < j.val → targetKey[j.val]? ≠ some '{' := by decide
  have m8 : ∀ j : Fin 8, 0 < j.val → moduleKey[j.val]? ≠ some '{' := by decide
  by_cases hlt : i < 8
  · rcases h with rfl | rfl
    · exact h8 ⟨i, hlt⟩ hi
    · exact m8 ⟨i, hlt⟩ hi
  · have : k.length ≤ i := by rw [h.length_eq]; omega
    simp [List.getElem?_eq_none this]

/-- A placeholder that starts inside `a` and is a prefix of `a` followed by a
placeholder lies within `a`: two occurrences never overlap. -/
theorem IsKey.prefix_of_prefix_append {k' k : GoString} (hk' : IsKey k') (hk : IsKey k)
    (a b : GoString) (ha : a ≠ []) (h : k' <+: a ++ (k ++ b)) : k' <+: a := by
  by_cases hl : 8 ≤ a.length
  · exact List.prefix_of_prefix_length_le h (List.prefix_append a _) (by rw [hk'.length_eq]; exact hl)
  · exfalso
    obtain ⟨t, ht⟩ := h
    obtain ⟨u, rfl⟩ := hk.head
    have hpos : 0 < a.length := List.length_pos.mpr ha
    have h1 : (a ++ ('{' :: u ++ b))[a.length]? = some '{' := by
      rw [List.getElem?_append_right (le_refl _)]; simp
    have h2 : (k' ++ t)[a.length]? = k'[a.length]? := by
      rw [List.getElem?_append_left (by rw [hk'.length_eq]; omega)]
    rw [← ht, h2] at h1
    exact hk'.brace_only_first _ hpos h1

theorem replaceVariables_key_append (v : Vars) {k : GoString} (hk : IsKey k) (r : GoString) :
    replaceVariables v (k ++ r)
      = (if k = targetKey then v.target else v.module) ++ replaceVariables v r := by
  rcases hk with rfl | rfl
  · simp [replaceVariables_targetKey_append]
  · have : moduleKey ≠ targetKey := by decide
    simp [replaceVariables_moduleKey_append, this]

/-- Substitution distributes over any occurrence of a placeholder. -/
theorem replaceVariables_append_key_append (v : Vars) {k : GoString} (hk : IsKey k)
    (a b : GoString) :
    replaceVariables v (a ++ (k ++ b))
      = replaceVariables v a ++ ((if k = targetKey then v.target else v.module)
          ++ replaceVariables v b) := by
  suffices H : ∀ n (a : GoString), a.length ≤ n → replaceVariables v (a ++ (k ++ b))
      = replaceVariables v a ++ ((if k = targetKey then v.target else v.module)
          ++ replaceVariables v b) from H a.length a le_rfl
  intro n
  induction n with
  | zero =>
    intro a h
    have : a = [] := List.eq_nil_of_length_eq_zero (by omega)
    subst this
    simpa [replaceVariables_nil] using replaceVariables_key_append v hk b
  | succ n ih =>
    intro a h
    match a, h with
    | [], _ => simpa [replaceVariables_nil] using replaceVariables_key_append v hk b
    | c :: a', h =>
      by_cases hp : ∃ k', IsKey k' ∧ k' <+: (c :: a') ++ (k ++ b)
      · obtain ⟨k', hk', hpre⟩ := hp
        obtain ⟨a'', ha''⟩ := hk'.prefix_of_prefix_append hk (c :: a') b (by simp) hpre
        have hlen : a''.length ≤ n := by
          have := congrArg List.length ha''
          rw [List.length_append, hk'.length_eq] at this
          simp at h this
          omega
        rw [← ha'', List.append_assoc, replaceVariables_key_append v hk',
          replaceVariables_key_append v hk', ih a'' hlen, List.append_assoc]
      · have ht : ¬ targetKey <+: c :: (a' ++ (k ++ b)) := fun hh => hp ⟨_, Or.inl rfl, hh⟩
        have hm : ¬ moduleKey <+: c :: (a' ++ (k ++ b)) := fun hh => hp ⟨_, Or.inr rfl, hh⟩
        have ht' : ¬ targetKey <+: c :: a' := fun hh => ht (hh.trans (List.prefix_append _ _))
        have hm' : ¬ moduleKey <+: c :: a' := fun hh => hm (hh.trans (List.prefix_append _ _))
        have hlen : a'.length ≤ n := by simp at h; omega
        rw [List.cons_append, replaceVariables_cons_of_no_match v c _ ht hm,
          replaceVariables_cons_of_no_match v c _ ht' hm', ih a' hlen, List.cons_append]

/-- Text without an occurrence of a placeholder is copied unchanged. -/
theorem replaceVariables_of_no_key (v : Vars) (T : GoString)
    (ht : ¬ targetKey <:+: T) (hm : ¬ moduleKey <:+: T) : replaceVariables v T = T := by
  induction T with
  | nil => rfl
  | cons c r ih =>
    rw [replaceVariables_cons_of_no_match v c r (fun h => ht h.isInfix) (fun h => hm h.isInfix),
      ih (fun h => ht (h.trans (List.suffix_cons c r).isInfix))
        (fun h => hm (h.trans (List.suffix_cons c r).isInfix))]

/-- Distribution over every occurrence of a placeholder and the identity on
placeholder-free text determine the function: whatever satisfies these
equations is `replaceVariables v`. -/
theorem replaceVariables_unique (v : Vars) (f : GoString → GoString)
    (ht : ∀ a b, f (a ++ targetKey ++ b) = f a ++ v.target ++ f b)
    (hm : ∀ a b, f (a ++ moduleKey ++ b) = f a ++ v.module ++ f b)
    (h0 : ∀ T, ¬ targetKey <:+: T → ¬ moduleKey <:+: T → f T = T) (T : GoString) :
    f T = replaceVariables v T := by
  suffices H : ∀ n (T : GoString), T.length ≤ n → f T = replaceVariables v T from
    H T.length T le_rfl
  intro n
  induction n with
  | zero =>
    intro T h
    have : T = [] := List.eq_nil_of_length_eq_zero (by omega)
    subst this
    rw [h0 [] (by decide) (by decide)]; rfl
  | succ n ih =>
    intro T h
    by_cases h1 : targetKey <:+: T
    · obtain ⟨a, b, rfl⟩ := h1
      have hl : (a ++ targetKey ++ b).length = a.length + 8 + b.length := by
        have h8 : targetKey.length = 8 := rfl
        simp only [List.length_append, h8]
      rw [ht, ih a (by omega) , ih b (by omega), List.append_assoc a,
        replaceVariables_append_key_append v (Or.inl rfl)]
      simp
    · by_cases h2 : moduleKey <:+: T
      · obtain ⟨a, b, rfl⟩ := h2
        have hl : (a ++ moduleKey ++ b).length = a.length + 8 + b.length := by
          have h8 : moduleKey.length = 8 := rfl
          simp only [List.length_append, h8]
        have hne : moduleKey ≠ targetKey := by decide
        rw [hm, ih a (by omega) , ih b (by omega), List.append_assoc a,
          replaceVariables_append_key_append v (Or.inr rfl)]
        simp [hne]
      · rw [h0 T h1 h2, replaceVariables_of_no_key v T h1 h2]

/-- C1. `replaceVariables` replaces every occurrence of `{target}` by the
target value and every occurrence of `{module}` by the module value and
leaves all other text unchanged: at any occurrence of a placeholder the
result is the result for the text before it, the value, and the result for
the text after it; a template in which neither placeholder occurs (whatever
other `{...}` tokens it has) is returned unchanged; and the template
`-t {target} -m {module} --unknown {x}` with target `10.0.0.5` and an empty
module gives `-t 10.0.0.5 -m  --unknown {x}`. -/
theorem replaceVariables_replaces_every_placeholder (v : Vars) :
    (∀ a b : GoString, replaceVariables v (a ++ targetKey ++ b)
        = replaceVariables v a ++ v.target ++ replaceVariables v b)
    ∧ (∀ a b : GoString, replaceVariables v (a ++ moduleKey ++ b)
        = replaceVariables v a ++ v.module ++ replaceVariables v b)
    ∧ (∀ T : GoString, ¬ targetKey <:+: T → ¬ moduleKey <:+: T → replaceVariables v T = T)
    ∧ replaceVariables ⟨"10.0.0.5".toList, "".toList⟩
          "-t {target} -m {module} --unknown {x}".toList
        = "-t 10.0.0.5 -m  --unknown {x}".toList := by
  refine ⟨fun a b => ?_, fun a b => ?_, replaceVariables_of_no_key v, by decide⟩
  · rw [List.append_assoc a, replaceVariables_append_key_append v (Or.inl rfl)]
    simp
  · have hne : moduleKey ≠ targetKey := by decide
    rw [List.append_assoc a, replaceVariables_append_key_append v (Or.inr rfl)]
    simp [hne]

/-- C1 at concrete inputs: one occurrence of each placeholder between other
text, and a template with unknown tokens only. -/
theorem replaceVariables_replaces_every_placeholder_witness :
    replaceVariables ⟨"h".toList, "m".toList⟩ ("a{x}".toList ++ targetKey ++ "{y}b".toList)
        = replaceVariables ⟨"h".toList, "m".toList⟩ "a{x}".toList ++ "h".toList
            ++ replaceVariables ⟨"h".toList, "m".toList⟩ "{y}b".toList
    ∧ replaceVariables ⟨"h".toList, "m".toList⟩ "--unknown {x} {unknown}".toList
        = "--unknown {x} {unknown}".toList :=
  ⟨(replaceVariables_replaces_every_placeholder ⟨"h".toList, "m".toList⟩).1 _ _,
   (replaceVariables_replaces_every_placeholder ⟨"h".toList, "m".toList⟩).2.2.1 _
     (by decide) (by decide)⟩

/-- C10. Substitution is one pass from left to right and the text a
substitution inserts is not scanned again: the template `{target}` gives
exactly the target value and `{module}` exactly the module value, whatever
these values contain, and after a placeholder the scan resumes in the
template; with target `{module}` and module `X` the template `{target}`
gives `{module}`, not `X`. -/
theorem replaceVariables_does_not_rescan :
    (∀ v : Vars, replaceVariables v targetKey = v.target)
    ∧ (∀ v : Vars, replaceVariables v moduleKey = v.module)
    ∧ (∀ (v : Vars) (r : GoString),
        replaceVariables v (targetKey ++ r) = v.target ++ replaceVariables v r)
    ∧ (∀ (v : Vars) (r : GoString),
        replaceVariables v (moduleKey ++ r) = v.module ++ replaceVariables v r)
    ∧ replaceVariables ⟨"{module}".toList, "X".toList⟩ "{target}".toList = "{module}".toList
    ∧ replaceVariables ⟨"T".toList, "{target}".toList⟩ "{module}".toList
        = "{target}".toList := by
  refine ⟨fun v => ?_, fun v => ?_, replaceVariables_targetKey_append,
    replaceVariables_moduleKey_append, by decide, by decide⟩
  · simpa [replaceVariables_nil] using replaceVariables_targetKey_append v []
  · simpa [replaceVariables_nil] using replaceVariables_moduleKey_append v []

/-! ### Catalog lookup -/

theorem getTool_eq_some_iff (equalFold : GoString → GoString → Bool) (tools : List Tool)
    (name : GoString) (t : Tool) :
    getTool equalFold tools name = some t ↔
      ∃ pre post, tools = pre ++ t :: post ∧ equalFold t.Name name = true
        ∧ ∀ u ∈ pre, equalFold u.Name name = false := by
  induction tools with
  | nil => simp [getTool]
  | cons x rest ih =>
    by_cases hx : equalFold x.Name name = true
    · simp only [getTool, hx, if_true, Option.some.injEq]
      constructor
      · rintro rfl
        exact ⟨[], rest, rfl, hx, by simp⟩
      · rintro ⟨pre, post, heq, _, hpre⟩
        match pre, heq, hpre with
        | [], heq, _ => simp at heq; exact heq.1
        | u :: pre', heq, hpre =>
          simp at heq
          have := hpre u (by simp)
          rw [← heq.1, hx] at this
          exact absurd this (by simp)
    · simp only [getTool, hx, Bool.false_eq_true, if_false, ih]
      constructor
      · rintro ⟨pre, post, rfl, ht, hpre⟩
        refine ⟨x :: pre, post, rfl, ht, ?_⟩
        intro u hu
        rcases List.mem_cons.mp hu with rfl | hu
        · simpa using hx
        · exact hpre u hu
      · rintro ⟨pre, post, heq, ht, hpre⟩
        match pre, heq, hpre with
        | [], heq, _ =>
          simp at heq
          rw [← heq.1] at ht
          exact absurd ht hx
        | u :: pre', heq, hpre =>
          simp at heq
          exact ⟨pre', post, heq.2, ht, fun w hw => hpre w (by simp [hw])⟩

theorem getTool_eq_none_iff (equalFold : GoString → GoString → Bool) (tools : List Tool)
    (name : GoString) :
    getTool equalFold tools name = none ↔ ∀ t ∈ tools, equalFold t.Name name = false := by
  induction tools with
  | nil => simp [getTool]
  | cons x rest ih =>
    by_cases hx : equalFold x.Name name = true
    · simp [getTool, hx]
    · simp [getTool, hx, ih]

/-- C8. `getTool` returns a tool exactly when some tool of the catalog has a
name that `strings.EqualFold` equates with the requested name; the tool it
returns is the first such entry in catalog order, the entry itself with all
its fields; otherwise it returns nil. -/
theorem getTool_returns_first_fold_match (equalFold : GoString → GoString → Bool)
    (tools : List Tool) (name : GoString) :
    ((∃ t, getTool equalFold tools name = some t)
        ↔ ∃ t ∈ tools, equalFold t.Name name = true)
    ∧ (∀ t, getTool equalFold tools name = some t ↔
        ∃ pre post, tools = pre ++ t :: post ∧ equalFold t.Name name = true
          ∧ ∀ u ∈ pre, equalFold u.Name name = false)
    ∧ (getTool equalFold tools name = none ↔ ∀ t ∈ tools, equalFold t.Name name = false) := by
  refine ⟨?_, getTool_eq_some_iff equalFold tools name, getTool_eq_none_iff equalFold tools name⟩
  constructor
  · rintro ⟨t, ht⟩
    obtain ⟨pre, post, rfl, hf, _⟩ := (getTool_eq_some_iff equalFold _ name t).mp ht
    exact ⟨t, by simp, hf⟩
  · rintro ⟨t, ht, hf⟩
    cases h : getTool equalFold tools name with
    | some u => exact ⟨u, rfl⟩
    | none =>
      have := (getTool_eq_none_iff equalFold tools name).mp h t ht
      rw [hf] at this
      exact absurd this (by simp)

/-- C8 on the example catalog: `NMAP` resolves to the tool `nmap`, the
second entry, with its install hint and its installed flag; `ghost` resolves
to no tool. -/
theorem getTool_returns_first_fold_match_witness :
    getTool asciiEqualFold demoConfig.Tools "NMAP".toList = some nmapMissing
    ∧ getTool asciiEqualFold demoConfig.Tools "ghost".toList = none :=
  ⟨((getTool_returns_first_fold_match asciiEqualFold demoConfig.Tools "NMAP".toList).2.1
      nmapMissing).mpr ⟨[echoTool], [], rfl, by decide, by decide⟩,
   (getTool_returns_first_fold_match asciiEqualFold demoConfig.Tools "ghost".toList).2.2.mpr
      (by decide)⟩

/-! ### Interleavings -/

theorem interleave_perm {α : Type} (s : List Bool) (xs ys : List α) :
    (interleave s xs ys).Perm (xs ++ ys) := by
  induction s generalizing xs ys with
  | nil =>
    cases xs with
    | nil => simp [interleave]
    | cons x xs =>
      cases ys with
      | nil => simp [interleave]
      | cons y ys => simp [interleave]
  | cons b s ih =>
    induction xs generalizing ys with
    | nil => simp [interleave]
    | cons x xs ihx =>
      induction ys with
      | nil => simp [interleave]
      | cons y ys ihy =>
        cases b with
        | true =>
          simp only [interleave, List.cons_append]
          exact (ih xs (y :: ys)).cons x
        | false =>
          simp only [interleave]
          refine ((ih (x :: xs) ys).cons y).trans ?_
          exact (@List.perm_middle _ y (x :: xs) ys).symm

theorem interleave_sublist_left {α : Type} (s : List Bool) (xs ys : List α) :
    xs.Sublist (interleave s xs ys) := by
  induction s generalizing xs ys with
  | nil =>
    cases xs with
    | nil => simp
    | cons x xs =>
      cases ys with
      | nil => simp [interleave]
      | cons y ys => simp [interleave]
  | cons b s ih =>
    induction xs generalizing ys with
    | nil => simp
    | cons x xs ihx =>
      induction ys with
      | nil => simp [interleave]
      | cons y ys ihy =>
        cases b with
        | true =>
          simp only [interleave]
          exact (ih xs (y :: ys)).cons₂ x
        | false =>
          simp only [interleave]
          exact (ih (x :: xs) ys).cons y

theorem interleave_sublist_right {α : Type} (s : List Bool) (xs ys : List α) :
    ys.Sublist (interleave s xs ys) := by
  induction s generalizing xs ys with
  | nil =>
    cases xs with
    | nil => simp [interleave]
    | cons x xs =>
      cases ys with
      | nil => simp
      | cons y ys => simp only [interleave]; exact List.sublist_append_right _ _
  | cons b s ih =>
    induction xs generalizing ys with
    | nil => simp [interleave]
    | cons x xs ihx =>
      induction ys with
      | nil => simp
      | cons y ys ihy =>
        cases b with
        | true =>
          simp only [interleave]
          exact (ih xs (y :: ys)).cons x
        | false =>
          simp only [interleave]
          exact (ih (x :: xs) ys).cons₂ y

theorem mem_interleave {α : Type} (s : List Bool) (xs ys : List α) (a : α) :
    a ∈ interleave s xs ys ↔ a ∈ xs ∨ a ∈ ys := by
  rw [(interleave_perm s xs ys).mem_iff, List.mem_append]

/-! ### Phase executor -/

theorem streamOutput_not_ofRunScenario (pipe : List Nat) (logFile : Bool) (e : Event)
    (h : e ∈ streamOutput pipe logFile) : e.ofRunScenario = false := by
  simp only [streamOutput, List.mem_flatMap] at h
  obtain ⟨line, _, he⟩ := h
  cases logFile <;> simp at he
  · subst he; rfl
  · rcases he with rfl | rfl <;> rfl

theorem superviseProcess_not_ofRunScenario (l : Launch) (e : Event)
    (h : e ∈ superviseProcess l) : e.ofRunScenario = false := by
  simp only [superviseProcess, mem_interleave] at h
  rcases h with (h | h) | h
  · exact streamOutput_not_ofRunScenario _ _ e h
  · exact streamOutput_not_ofRunScenario _ _ e h
  · cases hw : l.waitOk <;> simp [hw] at h
    subst h; rfl

/-- No effect of `executePhase` is one of `runScenario`'s own statements. -/
theorem executePhase_not_ofRunScenario (equalFold : GoString → GoString → Bool)
    (cfg : Config) (v : Vars) (l : Launch) (phase : Phase) (e : Event)
    (h : e ∈ executePhase equalFold cfg v l phase) : e.ofRunScenario = false := by
  unfold executePhase at h
  cases hg : getTool equalFold cfg.Tools phase.Tool with
  | none => simp [hg] at h; subst h; rfl
  | some tool =>
    simp only [hg] at h
    cases hi : tool.Installed with
    | false => simp [hi] at h; subst h; rfl
    | true =>
      simp only [hi, Bool.not_true, Bool.false_eq_true, if_false, List.mem_append,
        List.mem_cons] at h
      rcases h with (h | h | h) | h
      · simp only [createLogFile, List.mem_cons] at h
        rcases h with rfl | h
        · rfl
        · cases hl : l.logOk <;> simp [hl] at h
          subst h; rfl
      · subst h; rfl
      · cases hs : l.startOk <;> simp [hs] at h
        · subst h; rfl
        · exact superviseProcess_not_ofRunScenario l e h
      · simp only [deferredClose] at h
        cases hl : l.logOk <;> simp [hl] at h
        subst h; rfl

/-- C5. For a phase whose tool name resolves to a catalog tool that is not
installed, `executePhase` does nothing but report `Tool <name> not installed!
Visit <install hint>`: no process is started and no log file is created, the
install hint is part of the message, and the function returns, so that the
loop of `runScenario` goes on with the phases that follow. -/
theorem executePhase_not_installed_reports_hint (equalFold : GoString → GoString → Bool)
    (cfg : Config) (v : Vars) (l : Launch) (phase : Phase) (tool : Tool)
    (hget : getTool equalFold cfg.Tools phase.Tool = some tool)
    (hinst : tool.Installed = false) :
    executePhase equalFold cfg v l phase
        = [Event.logPrintf (msgNotInstalled tool.Name tool.Install)]
    ∧ (∀ e ∈ executePhase equalFold cfg v l phase, e.isLaunch = false)
    ∧ tool.Install <:+: msgNotInstalled tool.Name tool.Install
    ∧ (∀ (w : Nat → Launch) (n i : Nat) (rest : List Phase), w i = l →
        runPhases equalFold cfg v w n i (phase :: rest)
          = Event.printBanner (i + 1) n :: Event.callExecutePhase phase
              :: Event.logPrintf (msgNotInstalled tool.Name tool.Install)
              :: runPhases equalFold cfg v w n (i + 1) rest) := by
  have hexec : executePhase equalFold cfg v l phase
      = [Event.logPrintf (msgNotInstalled tool.Name tool.Install)] := by
    simp [executePhase, hget, hinst]
  refine ⟨hexec, ?_, ?_, ?_⟩
  · intro e he
    rw [hexec] at he
    simp at he
    subst he; rfl
  · exact (List.suffix_append _ tool.Install).isInfix
  · intro w n i rest hw
    simp [runPhases, hw, hexec]

/-- C5 on the example catalog: the phase `NMAP` resolves to the tool `nmap`,
which is not installed. -/
theorem executePhase_not_installed_reports_hint_witness :
    executePhase asciiEqualFold demoConfig ⟨"10.0.0.5".toList, []⟩ quietLaunch
        ⟨"NMAP".toList, "-sV {target}".toList⟩
      = [Event.logPrintf
          "Tool nmap not installed! Visit https://nmap.org/download".toList] :=
  (executePhase_not_installed_reports_hint asciiEqualFold demoConfig
    ⟨"10.0.0.5".toList, []⟩ quietLaunch ⟨"NMAP".toList, "-sV {target}".toList⟩ nmapMissing
    (by decide) (by decide)).1

/-! ### Scenario runner -/

theorem findScenario_eq_none_iff (name : GoString) (scs : List Scenario) :
    findScenario name scs = none ↔ ∀ s ∈ scs, s.Name ≠ name := by
  induction scs with
  | nil => simp [findScenario]
  | cons x rest ih =>
    by_cases hx : x.Name = name
    · simp [findScenario, hx]
    · simp [findScenario, hx, ih]

theorem findScenario_first (name : GoString) (pre : List Scenario) (s : Scenario)
    (post : List Scenario) (hs : s.Name = name) (hpre : ∀ u ∈ pre, u.Name ≠ name) :
    findScenario name (pre ++ s :: post) = some s := by
  induction pre with
  | nil => simp [findScenario, hs]
  | cons x pre ih =>
    have hx : x.Name ≠ name := hpre x (by simp)
    simp only [List.cons_append, findScenario, hx, if_false]
    exact ih (fun u hu => hpre u (by simp [hu]))

theorem calls_append (a b : List Event) : calls (a ++ b) = calls a ++ calls b := by
  simp [calls, List.filterMap_append]

theorem banners_append (a b : List Event) : banners (a ++ b) = banners a ++ banners b := by
  simp [banners, List.filterMap_append]

theorem calls_eq_nil_of_not_ofRunScenario (tr : List Event)
    (h : ∀ e ∈ tr, e.ofRunScenario = false) : calls tr = [] := by
  rw [calls, List.filterMap_eq_nil_iff]
  intro e he
  have := h e he
  cases e <;> first | rfl | exact absurd this (by simp [Event.ofRunScenario])

theorem banners_eq_nil_of_not_ofRunScenario (tr : List Event)
    (h : ∀ e ∈ tr, e.ofRunScenario = false) : banners tr = [] := by
  rw [banners, List.filterMap_eq_nil_iff]
  intro e he
  have := h e he
  cases e <;> first | rfl | exact absurd this (by simp [Event.ofRunScenario])

theorem calls_executePhase (equalFold : GoString → GoString → Bool) (cfg : Config) (v : Vars)
    (l : Launch) (phase : Phase) : calls (executePhase equalFold cfg v l phase) = [] :=
  calls_eq_nil_of_not_ofRunScenario _ (executePhase_not_ofRunScenario equalFold cfg v l phase)

theorem banners_executePhase (equalFold : GoString → GoString → Bool) (cfg : Config)
    (v : Vars) (l : Launch) (phase : Phase) :
    banners (executePhase equalFold cfg v l phase) = [] :=
  banners_eq_nil_of_not_ofRunScenario _ (executePhase_not_ofRunScenario equalFold cfg v l phase)

theorem runPhases_cons (equalFold : GoString → GoString → Bool) (cfg : Config) (v : Vars)
    (w : Nat → Launch) (n i : Nat) (p : Phase) (ps : List Phase) :
    runPhases equalFold cfg v w n i (p :: ps)
      = Event.printBanner (i + 1) n :: Event.callExecutePhase p
          :: (executePhase equalFold cfg v (w i) p
              ++ runPhases equalFold cfg v w n (i + 1) ps) := by
  simp [runPhases]

theorem calls_runPhases (equalFold : GoString → GoString → Bool) (cfg : Config) (v : Vars)
    (w : Nat → Launch) (n i : Nat) (ps : List Phase) :
    calls (runPhases equalFold cfg v w n i ps) = ps := by
  induction ps generalizing i with
  | nil => rfl
  | cons p ps ih =>
    have h1 : ∀ tr, calls (Event.printBanner (i + 1) n :: Event.callExecutePhase p :: tr)
        = p :: calls tr := fun tr => rfl
    rw [runPhases_cons, h1, calls_append, calls_executePhase, ih]
    rfl

theorem banners_runPhases (equalFold : GoString → GoString → Bool) (cfg : Config) (v : Vars)
    (w : Nat → Launch) (n i : Nat) (ps : List Phase) :
    banners (runPhases equalFold cfg v w n i ps)
      = (List.range ps.length).map (fun k => (i + k + 1, n)) := by
  induction ps generalizing i with
  | nil => rfl
  | cons p ps ih =>
    have h1 : ∀ tr, banners (Event.printBanner (i + 1) n :: Event.callExecutePhase p :: tr)
        = (i + 1, n) :: banners tr := fun tr => rfl
    rw [runPhases_cons, h1, banners_append, banners_executePhase, ih, List.length_cons,
      List.range_succ_eq_map, List.map_cons, List.map_map]
    simp only [List.nil_append, Nat.add_zero, List.cons.injEq, true_and]
    apply List.map_congr_left
    intro k _
    simp only [Function.comp, Prod.mk.injEq, and_true]
    omega

theorem printComplete_not_mem_runPhases (equalFold : GoString → GoString → Bool)
    (cfg : Config) (v : Vars) (w : Nat → Launch) (n i : Nat) (ps : List Phase) :
    Event.printComplete ∉ runPhases equalFold cfg v w n i ps := by
  induction ps generalizing i with
  | nil => simp [runPhases]
  | cons p ps ih =>
    intro h
    simp only [runPhases_cons, List.mem_cons, List.mem_append] at h
    rcases h with h | h | h | h
    · simp at h
    · simp at h
    · have := executePhase_not_ofRunScenario equalFold cfg v (w i) p _ h
      simp [Event.ofRunScenario] at this
    · exact ih (i + 1) h

/-- The `k`-th turn of the loop: the banner, the call, and the effects of the
phase, after exactly `k` calls. -/
theorem runPhases_turn (equalFold : GoString → GoString → Bool) (cfg : Config) (v : Vars)
    (w : Nat → Launch) (n i : Nat) (ps : List Phase) (k : Nat) (hk : k < ps.length) :
    ∃ pre post, runPhases equalFold cfg v w n i ps
        = pre ++ Event.printBanner (i + k + 1) n :: Event.callExecutePhase (ps.get ⟨k, hk⟩)
            :: (executePhase equalFold cfg v (w (i + k)) (ps.get ⟨k, hk⟩) ++ post)
      ∧ (calls pre).length = k := by
  induction ps generalizing i k with
  | nil => simp at hk
  | cons p ps ih =>
    cases k with
    | zero => exact ⟨[], runPhases equalFold cfg v w n (i + 1) ps, by simp [runPhases_cons], rfl⟩
    | succ k =>
      have hk' : k < ps.length := by simpa using hk
      obtain ⟨pre, post, heq, hlen⟩ := ih (i + 1) k hk'
      refine ⟨Event.printBanner (i + 1) n :: Event.callExecutePhase p
          :: (executePhase equalFold cfg v (w i) p ++ pre), post, ?_, ?_⟩
      · rw [runPhases_cons, heq]
        have e1 : i + 1 + k = i + (k + 1) := by omega
        simp [e1]
      · have h1 : ∀ tr, calls (Event.printBanner (i + 1) n :: Event.callExecutePhase p :: tr)
            = p :: calls tr := fun tr => rfl
        rw [h1, calls_append, calls_executePhase]
        simp [hlen]

/-- C2. When the scenario is found by name, `runScenario` returns, calls
`executePhase` exactly once on each phase in declared order whatever the
outcomes of the phases are, prints exactly the banners `Phase 1/n` to
`Phase n/n`, the banner `i/n` immediately before the call for the `i`-th
phase (whose effects follow), and prints the scenario-complete message
exactly once, as the last effect. -/
theorem runScenario_attempts_every_phase_in_order (equalFold : GoString → GoString → Bool)
    (cfg : Config) (v : Vars) (w : Nat → Launch) (name : GoString) (sc : Scenario)
    (hfind : findScenario name cfg.Scenarios = some sc) :
    (runScenario equalFold cfg v w name).exit = none
    ∧ calls (runScenario equalFold cfg v w name).trace = sc.Phases
    ∧ banners (runScenario equalFold cfg v w name).trace
        = (List.range sc.Phases.length).map (fun k => (k + 1, sc.Phases.length))
    ∧ (∀ (k : Nat) (hk : k < sc.Phases.length), ∃ pre post,
        (runScenario equalFold cfg v w name).trace
          = pre ++ Event.printBanner (k + 1) sc.Phases.length
              :: Event.callExecutePhase (sc.Phases.get ⟨k, hk⟩)
              :: (executePhase equalFold cfg v (w k) (sc.Phases.get ⟨k, hk⟩) ++ post)
        ∧ (calls pre).length = k)
    ∧ (∃ body, (runScenario equalFold cfg v w name).trace = body ++ [Event.printComplete]
        ∧ Event.printComplete ∉ body) := by
  have hrun : runScenario equalFold cfg v w name
      = ⟨Event.printRunning sc.Name
          :: runPhases equalFold cfg v w sc.Phases.length 0 sc.Phases
          ++ [Event.printComplete], none⟩ := by
    simp [runScenario, hfind]
  rw [hrun]
  refine ⟨rfl, ?_, ?_, ?_, ?_⟩
  · have h1 : ∀ tr, calls (Event.printRunning sc.Name :: tr) = calls tr := fun tr => rfl
    have h2 : calls [Event.printComplete] = [] := rfl
    show calls (Event.printRunning sc.Name :: _ ++ [Event.printComplete]) = _
    rw [List.cons_append, h1, calls_append, calls_runPhases, h2, List.append_nil]
  · have h1 : ∀ tr, banners (Event.printRunning sc.Name :: tr) = banners tr := fun tr => rfl
    show banners (Event.printRunning sc.Name :: _ ++ [Event.printComplete]) = _
    have h2 : banners [Event.printComplete] = [] := rfl
    rw [List.cons_append, h1, banners_append, banners_runPhases, h2, List.append_nil]
    simp
  · intro k hk
    obtain ⟨pre, post, heq, hlen⟩ :=
      runPhases_turn equalFold cfg v w sc.Phases.length 0 sc.Phases k hk
    refine ⟨Event.printRunning sc.Name :: pre, post ++ [Event.printComplete], ?_, ?_⟩
    · show Event.printRunning sc.Name :: _ ++ [Event.printComplete] = _
      rw [heq]
      simp
    · have h1 : ∀ tr, calls (Event.printRunning sc.Name :: tr) = calls tr := fun tr => rfl
      rw [h1, hlen]
  · refine ⟨Event.printRunning sc.Name
        :: runPhases equalFold cfg v w sc.Phases.length 0 sc.Phases, rfl, ?_⟩
    simp only [List.mem_cons, not_or]
    exact ⟨by simp, printComplete_not_mem_runPhases equalFold cfg v w _ 0 sc.Phases⟩

/-- C2 on the example catalog. In `ghost-first` the tool of the first phase
is not in the catalog and the second phase is still attempted; in `three` the
tool of the second phase is not installed and phases 1 and 3 are executed,
with the scenario-complete message once, at the end. -/
theorem runScenario_attempts_every_phase_in_order_witness :
    calls (runScenario asciiEqualFold demoConfig ⟨"10.0.0.5".toList, []⟩
        (fun _ => quietLaunch) "ghost-first".toList).trace
      = [⟨"ghost".toList, []⟩, ⟨"echo-tool".toList, "hello {target}".toList⟩]
    ∧ calls (runScenario asciiEqualFold demoConfig ⟨"10.0.0.5".toList, []⟩
        (fun _ => quietLaunch) "three".toList).trace = threePhases.Phases
    ∧ (runScenario asciiEqualFold demoConfig ⟨"10.0.0.5".toList, []⟩
        (fun _ => quietLaunch) "three".toList).trace
      = [Event.printRunning "three".toList,
         Event.printBanner 1 3, Event.callExecutePhase ⟨"echo-tool".toList, "one".toList⟩,
         Event.createLog "echo-tool".toList true,
         Event.start "echo".toList ["one".toList] true,
         Event.println [111, 107], Event.logWrite [111, 107, 10], Event.closeLog,
         Event.printBanner 2 3,
         Event.callExecutePhase ⟨"NMAP".toList, "-sV {target}".toList⟩,
         Event.logPrintf "Tool nmap not installed! Visit https://nmap.org/download".toList,
         Event.printBanner 3 3, Event.callExecutePhase ⟨"echo-tool".toList, "three".toList⟩,
         Event.createLog "echo-tool".toList true,
         Event.start "echo".toList ["three".toList] true,
         Event.println [111, 107], Event.logWrite [111, 107, 10], Event.closeLog,
         Event.printComplete] :=
  ⟨(runScenario_attempts_every_phase_in_order asciiEqualFold demoConfig
      ⟨"10.0.0.5".toList, []⟩ (fun _ => quietLaunch) "ghost-first".toList ghostScenario
      (by decide)).2.1,
   (runScenario_attempts_every_phase_in_order asciiEqualFold demoConfig
      ⟨"10.0.0.5".toList, []⟩ (fun _ => quietLaunch) "three".toList threePhases
      (by decide)).2.1,
   by decide⟩

/-- C6. When no scenario of the catalog has exactly the requested name,
`runScenario` does nothing but report `Scenario <name> not found` and end the
process with status 1: no banner, no call of `executePhase`, no process and
no log file. When some scenario has exactly that name, the first such
scenario in catalog order is the one whose phases are run. -/
theorem runScenario_unknown_name_is_fatal (equalFold : GoString → GoString → Bool)
    (cfg : Config) (v : Vars) (w : Nat → Launch) (name : GoString) :
    ((∀ s ∈ cfg.Scenarios, s.Name ≠ name) →
        runScenario equalFold cfg v w name
            = ⟨[Event.logFatalf (msgScenarioNotFound name)], some 1⟩
        ∧ (∀ e ∈ (runScenario equalFold cfg v w name).trace,
            e.ofRunScenario = false ∧ e.isLaunch = false))
    ∧ (∀ (pre : List Scenario) (s : Scenario) (post : List Scenario),
        cfg.Scenarios = pre ++ s :: post → s.Name = name → (∀ u ∈ pre, u.Name ≠ name) →
        runScenario equalFold cfg v w name
          = ⟨Event.printRunning s.Name
              :: runPhases equalFold cfg v w s.Phases.length 0 s.Phases
              ++ [Event.printComplete], none⟩) := by
  constructor
  · intro h
    have hnone := (findScenario_eq_none_iff name cfg.Scenarios).mpr h
    have hrun : runScenario equalFold cfg v w name
        = ⟨[Event.logFatalf (msgScenarioNotFound name)], some 1⟩ := by
      simp [runScenario, hnone]
    refine ⟨hrun, ?_⟩
    intro e he
    rw [hrun] at he
    simp at he
    subst he
    exact ⟨rfl, rfl⟩
  · intro pre s post hcat hs hpre
    have hfind : findScenario name cfg.Scenarios = some s := by
      rw [hcat]; exact findScenario_first name pre s post hs hpre
    simp [runScenario, hfind]

/-- C6 on the example catalog: the name `Three` differs from `three` in case
and is fatal; of two scenarios named `three` the first is run. -/
theorem runScenario_unknown_name_is_fatal_witness :
    runScenario asciiEqualFold demoConfig ⟨[], []⟩ (fun _ => quietLaunch) "Three".toList
        = ⟨[Event.logFatalf "Scenario Three not found".toList], some 1⟩
    ∧ runScenario asciiEqualFold
          { demoConfig with Scenarios := [ghostScenario, threePhases,
              { threePhases with Phases := [] }] }
          ⟨[], []⟩ (fun _ => quietLaunch) "three".toList
        = ⟨Event.printRunning threePhases.Name
            :: runPhases asciiEqualFold
                { demoConfig with Scenarios := [ghostScenario, threePhases,
                    { threePhases with Phases := [] }] }
                ⟨[], []⟩ (fun _ => quietLaunch) threePhases.Phases.length 0 threePhases.Phases
            ++ [Event.printComplete], none⟩ :=
  ⟨((runScenario_unknown_name_is_fatal asciiEqualFold demoConfig ⟨[], []⟩
      (fun _ => quietLaunch) "Three".toList).1 (by decide)).1,
   (runScenario_unknown_name_is_fatal asciiEqualFold
      { demoConfig with Scenarios := [ghostScenario, threePhases,
          { threePhases with Phases := [] }] }
      ⟨[], []⟩ (fun _ => quietLaunch) "three".toList).2
      [ghostScenario] threePhases [{ threePhases with Phases := [] }] rfl (by decide)
      (by decide)⟩

/-! ### Tokenisation -/

/-- A field being read extends to the next space. -/
theorem fieldsLoop_some (w r : GoString) :
    fieldsLoop (some w) r
      = (w ++ r.takeWhile (fun c => !isSpace c))
          :: fieldsLoop none (r.dropWhile (fun c => !isSpace c)) := by
  induction r generalizing w with
  | nil => simp [fieldsLoop]
  | cons c r ih =>
    cases hc : isSpace c with
    | true => simp [fieldsLoop, hc, List.takeWhile, List.dropWhile]
    | false => simp [fieldsLoop, hc, List.takeWhile, List.dropWhile, ih]

theorem fields_nil : fields [] = [] := rfl

theorem fields_cons_space (c : Char) (r : GoString) (hc : isSpace c = true) :
    fields (c :: r) = fields r := by
  simp [fields, fieldsLoop, hc]

theorem fields_cons_nonspace (c : Char) (r : GoString) (hc : isSpace c = false) :
    fields (c :: r)
      = (c :: r.takeWhile (fun c => !isSpace c))
          :: fields (r.dropWhile (fun c => !isSpace c)) := by
  simp [fields, fieldsLoop, hc, fieldsLoop_some]

theorem noSpace_takeWhile (r : GoString) : NoSpace (r.takeWhile (fun c => !isSpace c)) := by
  intro c hc
  have := List.mem_takeWhile_imp hc
  simpa using this

/-- What is left after a field is empty or starts with a space. -/
theorem dropWhile_nonspace_head (r : GoString) :
    r.dropWhile (fun c => !isSpace c) = [] ∨
      ∃ d r', r.dropWhile (fun c => !isSpace c) = d :: r' ∧ isSpace d = true := by
  induction r with
  | nil => simp
  | cons c r ih =>
    cases hc : isSpace c with
    | true => right; exact ⟨c, r, by simp [List.dropWhile, hc], hc⟩
    | false => simpa [List.dropWhile, hc] using ih

/-- Every field is non-empty and free of spaces. -/
theorem fields_nonempty_noSpace (s : GoString) :
    ∀ a ∈ fields s, a ≠ [] ∧ NoSpace a := by
  suffices H : ∀ n (s : GoString), s.length ≤ n → ∀ a ∈ fields s, a ≠ [] ∧ NoSpace a from
    H s.length s le_rfl
  intro n
  induction n with
  | zero =>
    intro s h
    have : s = [] := List.eq_nil_of_length_eq_zero (by omega)
    subst this
    simp [fields_nil]
  | succ n ih =>
    intro s h
    match s, h with
    | [], _ => simp [fields_nil]
    | c :: r, h =>
      cases hc : isSpace c with
      | true =>
        rw [fields_cons_space c r hc]
        exact ih r (by simp at h; omega)
      | false =>
        rw [fields_cons_nonspace c r hc]
        intro a ha
        rcases List.mem_cons.mp ha with rfl | ha
        · refine ⟨by simp, ?_⟩
          intro x hx
          rcases List.mem_cons.mp hx with rfl | hx
          · exact hc
          · exact noSpace_takeWhile r x hx
        · refine ih _ ?_ a ha
          have := (List.dropWhile_sublist (fun c => !isSpace c) (l := r)).length_le
          simp at h
          omega

/-- The input is the fields in order, each after a run of spaces, and a run
of spaces at the end; only the first run may be empty. -/
theorem fields_decompose (s : GoString) :
    ∃ (gaps : List GoString) (trail : GoString),
      gaps.length = (fields s).length
      ∧ (∀ g ∈ gaps, AllSpace g) ∧ AllSpace trail
      ∧ (∀ g ∈ gaps.tail, g ≠ [])
      ∧ s = (List.zipWith (fun g a => g ++ a) gaps (fields s)).flatten ++ trail := by
  suffices H : ∀ n (s : GoString), s.length ≤ n →
      ∃ (gaps : List GoString) (trail : GoString),
        gaps.length = (fields s).length
        ∧ (∀ g ∈ gaps, AllSpace g) ∧ AllSpace trail
        ∧ (∀ g ∈ gaps.tail, g ≠ [])
        ∧ s = (List.zipWith (fun g a => g ++ a) gaps (fields s)).flatten ++ trail from
    H s.length s le_rfl
  intro n
  induction n with
  | zero =>
    intro s h
    have : s = [] := List.eq_nil_of_length_eq_zero (by omega)
    subst this
    exact ⟨[], [], by simp [fields_nil], by simp, by simp [AllSpace], by simp, by simp [fields_nil]⟩
  | succ n ih =>
    intro s h
    match s, h with
    | [], _ =>
      exact ⟨[], [], by simp [fields_nil], by simp, by simp [AllSpace], by simp,
        by simp [fields_nil]⟩
    | c :: r, h =>
      have hr : r.length ≤ n := by simp at h; omega
      cases hc : isSpace c with
      | true =>
        obtain ⟨gaps, trail, hlen, hg, ht, htl, heq⟩ := ih r hr
        rw [fields_cons_space c r hc]
        match gaps, hlen, hg, htl, heq with
        | [], hlen, _, _, heq =>
          have hf : fields r = [] := List.eq_nil_of_length_eq_zero (by simpa using hlen.symm)
          refine ⟨[], c :: trail, by simp [hf], by simp, ?_, by simp, ?_⟩
          · intro x hx
            rcases List.mem_cons.mp hx with rfl | hx
            · exact hc
            · exact ht x hx
          · rw [hf] at heq ⊢
            simp at heq ⊢
            exact heq
        | g :: gs, hlen, hg, htl, heq =>
          refine ⟨(c :: g) :: gs, trail, by simpa using hlen, ?_, ht, by simpa using htl, ?_⟩
          · intro x hx
            rcases List.mem_cons.mp hx with rfl | hx
            · intro y hy
              rcases List.mem_cons.mp hy with rfl | hy
              · exact hc
              · exact hg g (by simp) y hy
            · exact hg x (by simp [hx])
          · cases hf : fields r with
            | nil => rw [hf] at hlen; simp at hlen
            | cons a as =>
              rw [hf] at heq
              simp at heq ⊢
              exact heq
      | false =>
        have hdl : (r.dropWhile (fun c => !isSpace c)).length ≤ n :=
          le_trans (List.dropWhile_sublist (fun c => !isSpace c) (l := r)).length_le hr
        obtain ⟨gaps, trail, hlen, hg, ht, htl, heq⟩ := ih _ hdl
        rw [fields_cons_nonspace c r hc]
        refine ⟨[] :: gaps, trail, by simpa using hlen, ?_, ht, ?_, ?_⟩
        · intro x hx
          rcases List.mem_cons.mp hx with rfl | hx
          · simp [AllSpace]
          · exact hg x hx
        · intro g hgm
          simp only [List.tail_cons] at hgm
          match gaps, hlen, hg, htl, heq, hgm with
          | g1 :: gs, hlen, hg, htl, heq, hgm =>
            rcases List.mem_cons.mp hgm with rfl | hgm
            · rintro rfl
              cases hf : fields (r.dropWhile (fun c => !isSpace c)) with
              | nil => rw [hf] at hlen; simp at hlen
              | cons a as =>
                have ha := fields_nonempty_noSpace (r.dropWhile (fun c => !isSpace c)) a
                  (by rw [hf]; simp)
                rw [hf] at heq
                rcases dropWhile_nonspace_head r with h0 | ⟨d, r', hd, hds⟩
                · rw [h0] at hf; simp [fields_nil] at hf
                · rw [hd] at heq
                  match a, ha with
                  | x :: a', ha =>
                    simp at heq
                    have := ha.2 x (by simp)
                    rw [← heq.1, hds] at this
                    simp at this
            · exact htl g (by simpa using hgm)
        · have hsplit := List.takeWhile_append_dropWhile (fun c => !isSpace c) r
          simp only [List.zipWith_cons_cons, List.flatten_cons, List.nil_append,
            List.cons_append, List.append_assoc]
          rw [← heq, hsplit]

theorem fields_of_allSpace (s : GoString) (h : AllSpace s) : fields s = [] := by
  induction s with
  | nil => rfl
  | cons c r ih =>
    rw [fields_cons_space c r (h c (by simp))]
    exact ih (fun x hx => h x (by simp [hx]))

theorem createLogFile_not_start (context : GoString) (ok : Bool) (path : GoString)
    (args : List GoString) (b : Bool) : Event.start path args b ∉ createLogFile context ok := by
  cases ok <;> simp [createLogFile]

theorem streamOutput_not_isLaunch (pipe : List Nat) (logFile : Bool) (e : Event)
    (h : e ∈ streamOutput pipe logFile) : e.isLaunch = false := by
  simp only [streamOutput, List.mem_flatMap] at h
  obtain ⟨line, _, he⟩ := h
  cases logFile <;> simp at he
  · subst he; rfl
  · rcases he with rfl | rfl <;> rfl

theorem superviseProcess_not_isLaunch (l : Launch) (e : Event)
    (h : e ∈ superviseProcess l) : e.isLaunch = false := by
  simp only [superviseProcess, mem_interleave] at h
  rcases h with (h | h) | h
  · exact streamOutput_not_isLaunch _ _ e h
  · exact streamOutput_not_isLaunch _ _ e h
  · cases hw : l.waitOk <;> simp [hw] at h
    subst h; rfl

theorem deferredClose_not_isLaunch (l : Launch) (e : Event)
    (h : e ∈ deferredClose l) : e.isLaunch = false := by
  simp only [deferredClose] at h
  cases hl : l.logOk <;> simp [hl] at h
  subst h; rfl

/-- The only process `executePhase` starts has the arguments `commandArgs`
of the phase's template. -/
theorem start_mem_executePhase (equalFold : GoString → GoString → Bool) (cfg : Config)
    (v : Vars) (l : Launch) (phase : Phase) (path : GoString) (args : List GoString)
    (b : Bool) (h : Event.start path args b ∈ executePhase equalFold cfg v l phase) :
    args = commandArgs v phase.Args := by
  unfold executePhase at h
  cases hg : getTool equalFold cfg.Tools phase.Tool with
  | none => simp [hg] at h
  | some tool =>
    simp only [hg] at h
    cases hi : tool.Installed with
    | false => simp [hi] at h
    | true =>
      simp only [hi, Bool.not_true, Bool.false_eq_true, if_false, List.mem_append,
        List.mem_cons] at h
      rcases h with (h | h | h) | h
      · exact absurd h (createLogFile_not_start _ _ _ _ _)
      · simp at h; exact h.2.1
      · cases hs : l.startOk <;> simp [hs] at h
        have := superviseProcess_not_isLaunch l _ h
        simp [Event.isLaunch] at this
      · have := deferredClose_not_isLaunch l _ h
        simp [Event.isLaunch] at this

/-- The only process `runTool` starts has the arguments `commandArgs` of the
tool's own template. -/
theorem start_mem_runTool (equalFold : GoString → GoString → Bool) (cfg : Config)
    (v : Vars) (l : Launch) (name : GoString) (path : GoString) (args : List GoString)
    (b : Bool) (h : Event.start path args b ∈ (runTool equalFold cfg v l name).trace) :
    ∃ tool, getTool equalFold cfg.Tools name = some tool ∧ args = commandArgs v tool.Args := by
  unfold runTool at h
  cases hg : getTool equalFold cfg.Tools name with
  | none => simp [hg] at h
  | some tool =>
    refine ⟨tool, rfl, ?_⟩
    simp only [hg] at h
    cases hi : tool.Installed with
    | false => simp [hi] at h
    | true =>
      cases hs : l.startOk with
      | false =>
        simp only [hi, hs, Bool.not_true, Bool.false_eq_true, if_false, List.mem_append,
          List.mem_cons] at h
        rcases h with h | h | h | h
        · exact absurd h (createLogFile_not_start _ _ _ _ _)
        · simp at h; exact h.2.1
        · simp at h
        · simp at h
      | true =>
        simp only [hi, hs, Bool.not_true, Bool.false_eq_true, if_false, if_true,
          List.mem_append, List.mem_cons] at h
        rcases h with (h | h | h) | h
        · exact absurd h (createLogFile_not_start _ _ _ _ _)
        · simp at h; exact h.2.1
        · have := superviseProcess_not_isLaunch l _ h
          simp [Event.isLaunch] at this
        · have := deferredClose_not_isLaunch l _ h
          simp [Event.isLaunch] at this

theorem starts_append (a b : List Event) : starts (a ++ b) = starts a ++ starts b := by
  simp [starts, List.filterMap_append]

theorem starts_eq_nil_of_not_isLaunch (tr : List Event)
    (h : ∀ e ∈ tr, e.isLaunch = false) : starts tr = [] := by
  rw [starts, List.filterMap_eq_nil_iff]
  intro e he
  have := h e he
  cases e <;> first | rfl | exact absurd this (by simp [Event.isLaunch])

theorem starts_createLogFile (context : GoString) (ok : Bool) :
    starts (createLogFile context ok) = [] := by
  cases ok <;> rfl

theorem starts_superviseProcess (l : Launch) : starts (superviseProcess l) = [] :=
  starts_eq_nil_of_not_isLaunch _ (superviseProcess_not_isLaunch l)

theorem starts_deferredClose (l : Launch) : starts (deferredClose l) = [] :=
  starts_eq_nil_of_not_isLaunch _ (deferredClose_not_isLaunch l)

/-- For a tool that is found and installed, `executePhase` starts exactly one
process: the tool's path with the `commandArgs` of the phase's template. -/
theorem starts_executePhase (equalFold : GoString → GoString → Bool) (cfg : Config)
    (v : Vars) (l : Launch) (phase : Phase) (tool : Tool)
    (hget : getTool equalFold cfg.Tools phase.Tool = some tool)
    (hinst : tool.Installed = true) :
    starts (executePhase equalFold cfg v l phase)
      = [(tool.Path, commandArgs v phase.Args, l.startOk)] := by
  have hexec : executePhase equalFold cfg v l phase
      = createLogFile tool.Name l.logOk
          ++ (Event.start tool.Path (commandArgs v phase.Args) l.startOk
              :: ((if l.startOk then superviseProcess l
                    else [Event.logPrintf msgStartError]) ++ deferredClose l)) := by
    simp [executePhase, hget, hinst]
  have h1 : ∀ tr, starts (Event.start tool.Path (commandArgs v phase.Args) l.startOk :: tr)
      = (tool.Path, commandArgs v phase.Args, l.startOk) :: starts tr := fun tr => rfl
  have h2 : starts (if l.startOk then superviseProcess l
      else [Event.logPrintf msgStartError]) = [] := by
    cases l.startOk
    · rfl
    · exact starts_superviseProcess l
  rw [hexec, starts_append, starts_createLogFile, h1, starts_append, h2,
    starts_deferredClose]
  rfl

/-- For a tool that is found and installed, `runTool` starts exactly one
process: the tool's path with the `commandArgs` of the tool's own template. -/
theorem starts_runTool (equalFold : GoString → GoString → Bool) (cfg : Config)
    (v : Vars) (l : Launch) (name : GoString) (tool : Tool)
    (hget : getTool equalFold cfg.Tools name = some tool)
    (hinst : tool.Installed = true) :
    starts (runTool equalFold cfg v l name).trace
      = [(tool.Path, commandArgs v tool.Args, l.startOk)] := by
  cases hs : l.startOk with
  | false =>
    have hrun : (runTool equalFold cfg v l name).trace
        = createLogFile tool.Name l.logOk
            ++ [Event.start tool.Path (commandArgs v tool.Args) false,
                Event.logFatalf msgStartError] := by
      simp [runTool, hget, hinst, hs]
    rw [hrun, starts_append, starts_createLogFile]
    rfl
  | true =>
    have hrun : (runTool equalFold cfg v l name).trace
        = createLogFile tool.Name l.logOk
            ++ (Event.start tool.Path (commandArgs v tool.Args) true
                :: (superviseProcess l ++ deferredClose l)) := by
      simp [runTool, hget, hinst, hs]
    have h1 : ∀ tr, starts (Event.start tool.Path (commandArgs v tool.Args) true :: tr)
        = (tool.Path, commandArgs v tool.Args, true) :: starts tr := fun tr => rfl
    rw [hrun, starts_append, starts_createLogFile, h1, starts_append,
      starts_superviseProcess, starts_deferredClose]
    rfl

/-- C9. The argument list handed to the child process, by `executePhase` and
by `runTool`, is the substituted template split on runs of whitespace: every
argument is non-empty and free of whitespace; the substituted string is these
arguments in order, each after a run of whitespace that is non-empty except
possibly before the first, with a run of whitespace at the end; an empty or
all-whitespace string gives no argument; a value that contains whitespace is
never an argument; and the template `-t {target} -m {module} --unknown {x}`
with target `10.0.0.5` and an empty module gives the five arguments
`-t`, `10.0.0.5`, `-m`, `--unknown`, `{x}`. Both functions do pass this list:
for a tool that is found and installed, `executePhase` starts exactly one
process, the tool's path with the arguments of the phase's template, and
`runTool` exactly one, the tool's path with the arguments of the tool's own
template; no other process is ever started by either. -/
theorem commandArgs_are_whitespace_fields (v : Vars) (template : GoString) :
    (∀ a ∈ commandArgs v template, a ≠ [] ∧ NoSpace a)
    ∧ (∃ (gaps : List GoString) (trail : GoString),
        gaps.length = (commandArgs v template).length
        ∧ (∀ g ∈ gaps, AllSpace g) ∧ AllSpace trail ∧ (∀ g ∈ gaps.tail, g ≠ [])
        ∧ replaceVariables v template
            = (List.zipWith (fun g a => g ++ a) gaps (commandArgs v template)).flatten
                ++ trail)
    ∧ (AllSpace (replaceVariables v template) → commandArgs v template = [])
    ∧ (∀ x : GoString, (∃ c ∈ x, isSpace c = true) → x ∉ commandArgs v template)
    ∧ commandArgs ⟨"10.0.0.5".toList, "".toList⟩
          "-t {target} -m {module} --unknown {x}".toList
        = ["-t".toList, "10.0.0.5".toList, "-m".toList, "--unknown".toList, "{x}".toList]
    ∧ (∀ (equalFold : GoString → GoString → Bool) (cfg : Config) (l : Launch)
        (phase : Phase) (path : GoString) (args : List GoString) (b : Bool),
        Event.start path args b ∈ executePhase equalFold cfg v l phase →
          args = commandArgs v phase.Args)
    ∧ (∀ (equalFold : GoString → GoString → Bool) (cfg : Config) (l : Launch)
        (name : GoString) (path : GoString) (args : List GoString) (b : Bool),
        Event.start path args b ∈ (runTool equalFold cfg v l name).trace →
          ∃ tool, getTool equalFold cfg.Tools name = some tool
            ∧ args = commandArgs v tool.Args)
    ∧ (∀ (equalFold : GoString → GoString → Bool) (cfg : Config) (l : Launch)
        (phase : Phase) (tool : Tool),
        getTool equalFold cfg.Tools phase.Tool = some tool → tool.Installed = true →
          starts (executePhase equalFold cfg v l phase)
              = [(tool.Path, commandArgs v phase.Args, l.startOk)]
          ∧ Event.start tool.Path (commandArgs v phase.Args) l.startOk
              ∈ executePhase equalFold cfg v l phase)
    ∧ (∀ (equalFold : GoString → GoString → Bool) (cfg : Config) (l : Launch)
        (name : GoString) (tool : Tool),
        getTool equalFold cfg.Tools name = some tool → tool.Installed = true →
          starts (runTool equalFold cfg v l name).trace
              = [(tool.Path, commandArgs v tool.Args, l.startOk)]
          ∧ Event.start tool.Path (commandArgs v tool.Args) l.startOk
              ∈ (runTool equalFold cfg v l name).trace) := by
  have mem_of_starts : ∀ (tr : List Event) (x : GoString × List GoString × Bool),
      starts tr = [x] → Event.start x.1 x.2.1 x.2.2 ∈ tr := by
    intro tr x hx
    have hm : x ∈ List.filterMap Event.start? tr := by
      rw [← starts, hx]; simp
    obtain ⟨e, he, hex⟩ := List.mem_filterMap.mp hm
    cases e <;> simp [Event.start?] at hex
    subst hex
    exact he
  refine ⟨fields_nonempty_noSpace _, fields_decompose _, fields_of_allSpace _, ?_, by decide,
    fun equalFold cfg l phase path args b h =>
      start_mem_executePhase equalFold cfg v l phase path args b h,
    fun equalFold cfg l name path args b h =>
      start_mem_runTool equalFold cfg v l name path args b h,
    fun equalFold cfg l phase tool hget hinst =>
      ⟨starts_executePhase equalFold cfg v l phase tool hget hinst,
       mem_of_starts _ _ (starts_executePhase equalFold cfg v l phase tool hget hinst)⟩,
    fun equalFold cfg l name tool hget hinst =>
      ⟨starts_runTool equalFold cfg v l name tool hget hinst,
       mem_of_starts _ _ (starts_runTool equalFold cfg v l name tool hget hinst)⟩⟩
  rintro x ⟨c, hc, hsp⟩ hx
  have := (fields_nonempty_noSpace _ x hx).2 c hc
  rw [hsp] at this
  exact absurd this (by simp)

/-- C9 at concrete inputs: a target value with a blank is split into two
arguments, an all-whitespace template gives no argument, and on the example
catalogs `runTool` and `executePhase` start the tool with the tokenised
string as its argument list. -/
theorem commandArgs_are_whitespace_fields_witness :
    "a b".toList ∉ commandArgs ⟨"a b".toList, []⟩ "-t {target}".toList
    ∧ commandArgs ⟨"a b".toList, []⟩ "-t {target}".toList
        = ["-t".toList, "a".toList, "b".toList]
    ∧ commandArgs ⟨" ".toList, []⟩ " {target}\t{module} ".toList = []
    ∧ starts (runTool asciiEqualFold nmapConfig ⟨"a b".toList, []⟩ quietLaunch
          "NMAP".toList).trace
        = [("nmap".toList, ["-sV".toList, "a".toList, "b".toList], true)]
    ∧ starts (executePhase asciiEqualFold demoConfig ⟨"a b".toList, []⟩ quietLaunch
          ⟨"Echo-Tool".toList, "-t {target} -m {module} --unknown {x}".toList⟩)
        = [("echo".toList,
            ["-t".toList, "a".toList, "b".toList, "-m".toList, "--unknown".toList,
              "{x}".toList], true)] :=
  ⟨(commandArgs_are_whitespace_fields ⟨"a b".toList, []⟩ "-t {target}".toList).2.2.2.1
      "a b".toList ⟨' ', by decide, by decide⟩,
   by decide,
   (commandArgs_are_whitespace_fields ⟨" ".toList, []⟩ " {target}\t{module} ".toList).2.2.1
      (by decide),
   ((commandArgs_are_whitespace_fields ⟨"a b".toList, []⟩ []).2.2.2.2.2.2.2.2
      asciiEqualFold nmapConfig quietLaunch "NMAP".toList nmapTool (by decide)
      (by decide)).1,
   ((commandArgs_are_whitespace_fields ⟨"a b".toList, []⟩ []).2.2.2.2.2.2.2.1
      asciiEqualFold demoConfig quietLaunch
      ⟨"Echo-Tool".toList, "-t {target} -m {module} --unknown {x}".toList⟩ echoTool
      (by decide) (by decide)).1⟩

/-! ### Stream tee -/

theorem scanLoop_line (cur x rest : List Nat) (hx : 10 ∉ x)
    (hlen : (cur ++ x).length < maxScanTokenSize) :
    scanLoop cur (x ++ 10 :: rest) = dropCR (cur ++ x) :: scanLoop [] rest := by
  induction x generalizing cur with
  | nil => simp [scanLoop]
  | cons b x ih =>
    have hb : b ≠ 10 := fun h => hx (by simp [h])
    have hx' : 10 ∉ x := fun h => hx (by simp [h])
    have hl : ¬ maxScanTokenSize ≤ cur.length + 1 := by
      simp only [List.length_append, List.length_cons] at hlen
      omega
    have hl' : ((cur ++ [b]) ++ x).length < maxScanTokenSize := by
      simpa using hlen
    have := ih (cur ++ [b]) hx' hl'
    simp only [List.cons_append, scanLoop, hb, if_false, hl]
    simpa using this

theorem scanLoop_last (cur x : List Nat) (hx : 10 ∉ x)
    (hlen : (cur ++ x).length < maxScanTokenSize) :
    scanLoop cur x = if cur ++ x = [] then [] else [dropCR (cur ++ x)] := by
  induction x generalizing cur with
  | nil => simp [scanLoop]
  | cons b x ih =>
    have hb : b ≠ 10 := fun h => hx (by simp [h])
    have hx' : 10 ∉ x := fun h => hx (by simp [h])
    have hl : ¬ maxScanTokenSize ≤ cur.length + 1 := by
      simp only [List.length_append, List.length_cons] at hlen
      omega
    have hl' : ((cur ++ [b]) ++ x).length < maxScanTokenSize := by
      simpa using hlen
    have := ih (cur ++ [b]) hx' hl'
    simp only [scanLoop, hb, if_false, hl]
    simpa using this

/-- The scanner stops for good at a line that does not fit its buffer. -/
theorem scanLoop_too_long (cur x rest : List Nat) (hx : 10 ∉ x)
    (hcur : cur.length < maxScanTokenSize)
    (hlen : maxScanTokenSize ≤ (cur ++ x).length) :
    scanLoop cur (x ++ rest) = [] := by
  induction x generalizing cur with
  | nil => simp at hlen; omega
  | cons b x ih =>
    have hb : b ≠ 10 := fun h => hx (by simp [h])
    have hx' : 10 ∉ x := fun h => hx (by simp [h])
    by_cases hl : maxScanTokenSize ≤ cur.length + 1
    · simp [scanLoop, hb, hl]
    · have := ih (cur ++ [b]) hx' (by simp; omega) (by simpa using hlen)
      simp only [List.cons_append, scanLoop, hb, if_false, hl]
      exact this

/-- A stream whose first line has `maxScanTokenSize` bytes or more yields no
line at all, whatever follows. -/
theorem scanLines_too_long (x rest : List Nat) (hx : 10 ∉ x)
    (hlen : maxScanTokenSize ≤ x.length) : scanLines (x ++ rest) = [] :=
  scanLoop_too_long [] x rest hx (by decide) (by simpa using hlen)

theorem scanLines_streamBytes (lines : List (List Nat)) (last : List Nat)
    (h : ∀ x ∈ streamLines lines last, 10 ∉ x ∧ x.length < maxScanTokenSize) :
    scanLines (streamBytes lines last) = (streamLines lines last).map dropCR := by
  induction lines with
  | nil =>
    by_cases hl : last = []
    · subst hl; rfl
    · have h1 := h last (by simp [streamLines, hl])
      have := scanLoop_last [] last h1.1 (by simpa using h1.2)
      simpa [scanLines, streamBytes, streamLines, hl] using this
  | cons x ls ih =>
    have h1 := h x (by simp [streamLines])
    have ih' := ih (fun y hy => h y (by
      simp only [streamLines, List.cons_append, List.mem_cons] at hy ⊢
      exact Or.inr hy))
    have hs : streamBytes (x :: ls) last = x ++ 10 :: streamBytes ls last := by
      simp [streamBytes]
    have hsl : streamLines (x :: ls) last = x :: streamLines ls last := by
      simp [streamLines]
    rw [hs, hsl, scanLines, scanLoop_line [] x _ h1.1 (by simpa using h1.2)]
    simpa [scanLines] using ih'

theorem logWrites_append (a b : List Event) :
    logWrites (a ++ b) = logWrites a ++ logWrites b := by
  simp [logWrites, List.filterMap_append]

theorem consoleLines_append (a b : List Event) :
    consoleLines (a ++ b) = consoleLines a ++ consoleLines b := by
  simp [consoleLines, List.filterMap_append]

theorem logWrites_streamOutput (pipe : List Nat) :
    logWrites (streamOutput pipe true) = (scanLines pipe).map (fun x => x ++ [10]) := by
  unfold streamOutput
  induction scanLines pipe with
  | nil => rfl
  | cons x xs ih =>
    rw [List.flatMap_cons, logWrites_append, ih]
    rfl

theorem consoleLines_streamOutput (pipe : List Nat) (logFile : Bool) :
    consoleLines (streamOutput pipe logFile) = scanLines pipe := by
  unfold streamOutput
  induction scanLines pipe with
  | nil => rfl
  | cons x xs ih =>
    rw [List.flatMap_cons, consoleLines_append, ih]
    cases logFile <;> rfl

theorem logWrites_superviseProcess_perm (l : Launch) :
    (logWrites (superviseProcess l)).Perm
      (logWrites (streamOutput l.stdout l.logOk) ++ logWrites (streamOutput l.stderr l.logOk)) := by
  have h1 := (interleave_perm l.schedMain
    (interleave l.sched (streamOutput l.stdout l.logOk) (streamOutput l.stderr l.logOk))
    (if l.waitOk then [] else [Event.logPrintf msgCommandFailed])).filterMap Event.logWrite?
  have h2 := (interleave_perm l.sched (streamOutput l.stdout l.logOk)
    (streamOutput l.stderr l.logOk)).filterMap Event.logWrite?
  have h3 : List.filterMap Event.logWrite?
      (if l.waitOk then [] else [Event.logPrintf msgCommandFailed]) = [] := by
    cases l.waitOk <;> rfl
  rw [List.filterMap_append, h3, List.append_nil] at h1
  rw [List.filterMap_append] at h2
  exact h1.trans h2

theorem consoleLines_superviseProcess_perm (l : Launch) :
    (consoleLines (superviseProcess l)).Perm
      (consoleLines (streamOutput l.stdout l.logOk)
        ++ consoleLines (streamOutput l.stderr l.logOk)) := by
  have h1 := (interleave_perm l.schedMain
    (interleave l.sched (streamOutput l.stdout l.logOk) (streamOutput l.stderr l.logOk))
    (if l.waitOk then [] else [Event.logPrintf msgCommandFailed])).filterMap Event.println?
  have h2 := (interleave_perm l.sched (streamOutput l.stdout l.logOk)
    (streamOutput l.stderr l.logOk)).filterMap Event.println?
  have h3 : List.filterMap Event.println?
      (if l.waitOk then [] else [Event.logPrintf msgCommandFailed]) = [] := by
    cases l.waitOk <;> rfl
  rw [List.filterMap_append, h3, List.append_nil] at h1
  rw [List.filterMap_append] at h2
  exact h1.trans h2

theorem streamOutput_stdout_sublist (l : Launch) :
    (streamOutput l.stdout l.logOk).Sublist (superviseProcess l) :=
  (interleave_sublist_left l.sched _ _).trans (interleave_sublist_left l.schedMain _ _)

theorem streamOutput_stderr_sublist (l : Launch) :
    (streamOutput l.stderr l.logOk).Sublist (superviseProcess l) :=
  (interleave_sublist_right l.sched _ _).trans (interleave_sublist_left l.schedMain _ _)

/-- C3 as stated fails. A process writes the single line `a\r` to stdout,
followed by a newline. The log file receives `a` and a newline: the line as
written, followed by a newline, is not what is appended. -/
theorem tee_strips_carriage_return :
    logWrites (superviseProcess crLaunch) = [[97, 10]]
    ∧ consoleLines (superviseProcess crLaunch) = [[97]]
    ∧ ¬ (logWrites (superviseProcess crLaunch)).Perm
        ((streamLines [[97, 13]] [] ++ streamLines [] []).map (fun x => x ++ [10])) := by
  decide

/-- C3, amended. Let the two drains read, up to the end of their streams, the
lines `outLines` and `errLines` (each possibly with a final line without a
newline), every line shorter than `maxScanTokenSize` bytes, and let the log
file be open. Then the byte strings appended to the log file are exactly
these N+M lines, each with one trailing carriage return removed and followed
by a newline: as many, none duplicated or dropped, in any order between the
streams and in the order written within a stream; and the console receives
the same N+M lines. -/
theorem tee_emits_every_line (l : Launch) (outLines errLines : List (List Nat))
    (outLast errLast : List Nat)
    (hout : l.stdout = streamBytes outLines outLast)
    (herr : l.stderr = streamBytes errLines errLast)
    (hlines : ∀ x ∈ streamLines outLines outLast ++ streamLines errLines errLast,
      10 ∉ x ∧ x.length < maxScanTokenSize)
    (hlog : l.logOk = true) :
    (logWrites (superviseProcess l)).Perm
        ((streamLines outLines outLast ++ streamLines errLines errLast).map
          (fun x => dropCR x ++ [10]))
    ∧ ((streamLines outLines outLast).map (fun x => dropCR x ++ [10])).Sublist
        (logWrites (superviseProcess l))
    ∧ ((streamLines errLines errLast).map (fun x => dropCR x ++ [10])).Sublist
        (logWrites (superviseProcess l))
    ∧ (logWrites (superviseProcess l)).length
        = (streamLines outLines outLast).length + (streamLines errLines errLast).length
    ∧ (consoleLines (superviseProcess l)).Perm
        ((streamLines outLines outLast ++ streamLines errLines errLast).map dropCR)
    ∧ ((streamLines outLines outLast).map dropCR).Sublist (consoleLines (superviseProcess l))
    ∧ ((streamLines errLines errLast).map dropCR).Sublist
        (consoleLines (superviseProcess l)) := by
  have so := scanLines_streamBytes outLines outLast
    (fun x hx => hlines x (List.mem_append_left _ hx))
  have se := scanLines_streamBytes errLines errLast
    (fun x hx => hlines x (List.mem_append_right _ hx))
  have lo : logWrites (streamOutput l.stdout l.logOk)
      = (streamLines outLines outLast).map (fun x => dropCR x ++ [10]) := by
    rw [hlog, hout, logWrites_streamOutput, so, List.map_map]; rfl
  have le : logWrites (streamOutput l.stderr l.logOk)
      = (streamLines errLines errLast).map (fun x => dropCR x ++ [10]) := by
    rw [hlog, herr, logWrites_streamOutput, se, List.map_map]; rfl
  have co : consoleLines (streamOutput l.stdout l.logOk)
      = (streamLines outLines outLast).map dropCR := by
    rw [hout, consoleLines_streamOutput, so]
  have ce : consoleLines (streamOutput l.stderr l.logOk)
      = (streamLines errLines errLast).map dropCR := by
    rw [herr, consoleLines_streamOutput, se]
  have hp := logWrites_superviseProcess_perm l
  rw [lo, le, ← List.map_append] at hp
  have hc := consoleLines_superviseProcess_perm l
  rw [co, ce, ← List.map_append] at hc
  refine ⟨hp, ?_, ?_, ?_, hc, ?_, ?_⟩
  · rw [← lo]; exact (streamOutput_stdout_sublist l).filterMap _
  · rw [← le]; exact (streamOutput_stderr_sublist l).filterMap _
  · rw [hp.length_eq]; simp
  · rw [← co]; exact (streamOutput_stdout_sublist l).filterMap _
  · rw [← ce]; exact (streamOutput_stderr_sublist l).filterMap _

/-- C3, amended, at a concrete input: stdout carries `a`, `b` and a final `c`
without newline, stderr the line `e`; the log file receives the four lines,
the final partial line included. -/
theorem tee_emits_every_line_witness :
    (logWrites (superviseProcess mixedLaunch)).Perm
        ((streamLines [[97], [98]] [99] ++ streamLines [[101]] []).map
          (fun x => dropCR x ++ [10]))
    ∧ logWrites (superviseProcess mixedLaunch) = [[97, 10], [101, 10], [98, 10], [99, 10]]
    ∧ consoleLines (superviseProcess mixedLaunch) = [[97], [101], [98], [99]] :=
  ⟨(tee_emits_every_line mixedLaunch [[97], [98]] [[101]] [99] [] rfl rfl (by decide) rfl).1,
   by decide, by decide⟩

/-! ### Supervision of a started process -/

theorem step_pc_returned (cap : Nat) (s s' : Sys) (l : Label) (h : step cap s l = some s')
    (hinv : (s.pc = .returned → s.out.done = true ∧ s.err.done = true)
      ∧ (s.pc ≠ .cmdWait → s.exited = true)) :
    (s'.pc = .returned → s'.out.done = true ∧ s'.err.done = true)
      ∧ (s'.pc ≠ .cmdWait → s'.exited = true) := by
  obtain ⟨h1, h2⟩ := hinv
  cases l with
  | childWrite fd =>
    simp only [step] at h
    split at h
    · simp at h
    · split at h
      · cases fd <;>
          · simp only [Option.some.injEq] at h
            subst h
            simp_all [Sys.setPipe, Sys.pipe]
      · simp at h
  | childExit =>
    simp only [step] at h
    split at h
    · simp only [Option.some.injEq] at h
      subst h
      exact ⟨h1, fun _ => rfl⟩
    · simp at h
  | drainRead fd =>
    simp only [step] at h
    split at h
    · simp at h
    · split at h
      · cases fd <;>
          · simp only [Option.some.injEq] at h
            subst h
            simp_all [Sys.setPipe, Sys.pipe]
      · split at h
        · cases fd <;>
            · simp only [Option.some.injEq] at h
              subst h
              simp_all [Sys.setPipe, Sys.pipe]
        · split at h
          · cases fd <;>
              · simp only [Option.some.injEq] at h
                subst h
                simp_all [Sys.setPipe, Sys.pipe]
          · simp at h
  | mainStep =>
    simp only [step] at h
    split at h
    · split at h
      · simp only [Option.some.injEq] at h
        subst h
        simp_all
      · simp at h
    · split at h
      · simp only [Option.some.injEq] at h
        subst h
        simp_all
      · simp at h
    · simp at h

/-- In every execution, when the function has returned, the process has
exited and both drains have left their loops. -/
theorem exec_returned_after_exit_and_drains (cap : Nat) (out err : List Nat)
    (ls : List Label) (s : Sys) (h : exec cap (Sys.init out err) ls = some s)
    (hret : s.pc = .returned) :
    s.exited = true ∧ s.out.done = true ∧ s.err.done = true := by
  suffices H : ∀ (ls : List Label) (s0 s : Sys), exec cap s0 ls = some s →
      ((s0.pc = .returned → s0.out.done = true ∧ s0.err.done = true)
        ∧ (s0.pc ≠ .cmdWait → s0.exited = true)) →
      ((s.pc = .returned → s.out.done = true ∧ s.err.done = true)
        ∧ (s.pc ≠ .cmdWait → s.exited = true)) by
    have := H ls _ s h ⟨by simp [Sys.init], by simp [Sys.init]⟩
    exact ⟨this.2 (by simp [hret]), this.1 hret⟩
  intro ls
  induction ls with
  | nil =>
    intro s0 s h hinv
    simp only [exec, Option.some.injEq] at h
    subst h
    exact hinv
  | cons l ls ih =>
    intro s0 s h hinv
    simp only [exec] at h
    cases hs : step cap s0 l with
    | none => simp [hs] at h
    | some s1 =>
      simp only [hs] at h
      exact ih s1 s h (step_pc_returned cap s0 s1 l hs hinv)

/-- C4, the failing execution. The child writes `a` and a newline to stdout
and exits; `cmd.Wait()`, issued before the drains have finished, returns and
closes the read ends; the drain of stdout then fails its read and leaves its
loop; `wg.Wait()` returns. The function has returned, the process has exited
and both drains are done, yet the drain of stdout has read nothing: the two
bytes written are still in the pipe. -/
theorem supervise_returns_with_unread_output :
    exec 65536 (Sys.init [97, 10] []) waitFirst
      = some { out := ⟨[], [97, 10], [], true⟩, err := ⟨[], [], [], true⟩,
               exited := true, closed := true, pc := .returned } := by
  decide

/-! ### Command line -/

theorem flagParse_nonFlag (v : Vars) (s : GoString) (args : List GoString)
    (h : classifyArg s = .nonFlag) : flagParse v (s :: args) = .ok v (s :: args) := by
  simp [flagParse, flagLoop, h]

/-- Whenever `main` comes to run a tool or a scenario, both flag variables
still have their default, the empty string. -/
theorem dispatch_run_vars_default (osArgs : List GoString) (name : GoString) (v : Vars)
    (h : dispatch osArgs = .runTool name v ∨ dispatch osArgs = .runScenario name v) :
    v = ⟨[], []⟩ := by
  match osArgs with
  | [] => simp [dispatch, flagParse, flagLoop] at h
  | [_] => simp [dispatch, flagParse, flagLoop] at h
  | a :: cmd :: rest =>
    by_cases hl : cmd = "list".toList
    · subst hl
      have hp := flagParse_nonFlag ⟨[], []⟩ "list".toList rest (by decide)
      simp only [dispatch, List.drop_succ_cons, List.drop_zero, hp, if_true] at h
      unfold listCommand at h
      split at h
      · split at h
        · simp at h
        · split at h <;> simp at h
      · simp at h
    · by_cases hs : cmd = "scenario".toList
      · subst hs
        have hp := flagParse_nonFlag ⟨[], []⟩ "scenario".toList rest (by decide)
        have hne : "scenario".toList ≠ "list".toList := by decide
        simp only [dispatch, List.drop_succ_cons, List.drop_zero, hp, hne, if_false,
          if_true] at h
        unfold scenarioCommand at h
        split at h
        · split at h
          · split at h
            · simp at h; exact h.2.symm
            · simp at h
          · simp at h
        · simp at h
      · by_cases ht : cmd = "tool".toList
        · subst ht
          have hp := flagParse_nonFlag ⟨[], []⟩ "tool".toList rest (by decide)
          have hne : "tool".toList ≠ "list".toList := by decide
          have hne2 : "tool".toList ≠ "scenario".toList := by decide
          simp only [dispatch, List.drop_succ_cons, List.drop_zero, hp, hne, hne2, if_false,
            if_true] at h
          unfold toolCommand at h
          split at h
          · split at h
            · split at h
              · simp at h; exact h.2.symm
              · simp at h
            · simp at h
          · simp at h
        · simp only [dispatch, List.drop_succ_cons, List.drop_zero] at h
          have hl' : ¬ cmd = ['l', 'i', 's', 't'] := hl
          have hs' : ¬ cmd = ['s', 'c', 'e', 'n', 'a', 'r', 'i', 'o'] := hs
          have ht' : ¬ cmd = ['t', 'o', 'o', 'l'] := ht
          split at h
          · simp at h
          · simp [hl', hs', ht'] at h

/-- C7, the failing input. For the documented command line
`rtcli tool run nmap -target 10.0.0.5`, `flag.Parse()` stops at the first
argument `tool`, which is not a flag, so `runTool("nmap")` runs with an empty
target (and module): for the template `-sV {target}` the process is started
with the single argument `-sV`, where target `10.0.0.5` would give `-sV
10.0.0.5`. With the flags before the subcommand, `os.Args[1]` is `-target`
and `main` prints the help. No command line runs a tool or scenario with a
non-empty target or module. -/
theorem main_documented_flags_are_not_parsed :
    dispatch documentedArgs = .runTool "nmap".toList ⟨[], []⟩
    ∧ (main asciiEqualFold nmapConfig (fun _ => quietLaunch) documentedArgs).trace
        = [Event.createLog "nmap".toList true,
           Event.start "nmap".toList ["-sV".toList] true,
           Event.println [111, 107], Event.logWrite [111, 107, 10], Event.closeLog]
    ∧ commandArgs ⟨"10.0.0.5".toList, []⟩ nmapTool.Args = ["-sV".toList, "10.0.0.5".toList]
    ∧ dispatch ["rtcli".toList, "-target".toList, "10.0.0.5".toList, "tool".toList,
        "run".toList, "nmap".toList] = .help
    ∧ dispatch ["rtcli".toList, "scenario".toList, "run".toList, "three".toList,
        "-target".toList, "10.0.0.5".toList, "-module".toList, "m".toList]
        = .runScenario "three".toList ⟨[], []⟩
    ∧ (∀ (osArgs : List GoString) (name : GoString) (v : Vars),
        dispatch osArgs = .runTool name v ∨ dispatch osArgs = .runScenario name v →
          v = ⟨[], []⟩) := by
  refine ⟨by decide, by decide, by decide, by decide, by decide, ?_⟩
  intro osArgs name v h
  exact dispatch_run_vars_default osArgs name v h

/-- The flags are parsed when they come first: `flag.Parse()` reads
`-target 10.0.0.5 --module=x` and stops at `tool`. -/
theorem flagParse_leading_flags :
    flagParse ⟨[], []⟩
        ["-target".toList, "10.0.0.5".toList, "--module=x".toList, "tool".toList]
      = .ok ⟨"10.0.0.5".toList, "x".toList⟩ ["tool".toList] := by
  decide

end RedTeam
